import Mathlib

/-!
Verification development for the muzero repository's trajectory recording
(`GameStats.append`, `GameStats.update_last_reward_and_values`) and target
construction (`GameStats.make_target`) from `simulation.py`.

Shallow embedding conventions:
* torch float32 tensors that are only stored and copied are embedded as `ℚ`;
  quantities produced by `make_target`'s value computation pass through
  `torch.logspace`, whose entries are real powers, so they are embedded as `ℝ`.
* 2-D tensors of shape `(batch, step)` become `List (List ℚ)` (row = slot);
  the `(batch, action, step)` visit tensor becomes `List (List (List ℚ))`.
* code that raises (`raise ValueError`, index errors on out-of-range tensor
  indexing, shape mismatches on assignment/broadcast) is embedded with
  `Except AppendError` / `Except String`.
-/

namespace Muzero

/-- The hyperparameters consumed by `GameStats` (fields of `GenericHparams`
that `simulation.py` reads). -/
structure Hparams where
  batch_size : Nat
  max_episode_len : Nat
  num_actions : Nat
  num_unroll_steps : Nat
  td_steps : Nat
  value_discount : ℚ
deriving DecidableEq

/-- The stored trajectory state of `GameStats.__init__` (simulation.py lines
79-86): `episode_len : (B,) int64`, `rewards/root_values : (B, M) float32`,
`children_visits : (B, A, M) float32`, `actions/player_ids : (B, M) int64`,
`dones : (B,) bool`, `game_states`: a python list of appended whole-batch
state tensors (each embedded as one opaque `Int` per slot). -/
structure GameStats where
  episode_len : List Nat
  rewards : List (List ℚ)
  root_values : List (List ℚ)
  children_visits : List (List (List ℚ))
  actions : List (List Int)
  player_ids : List (List Int)
  dones : List Bool
  game_states : List (List Int)
deriving DecidableEq

/-- Read entry `(i, j)` of a 2-D list, defaulting out of range. -/
def getD2 {α : Type} (m : List (List α)) (i j : Nat) (dflt : α) : α :=
  (m.getD i []).getD j dflt

/-- Write entry `(i, j)` of a 2-D list (no-op out of range, as `List.set`). -/
def set2 {α : Type} (m : List (List α)) (i j : Nat) (x : α) : List (List α) :=
  m.set i ((m.getD i []).set j x)

/-- Read entry `(i, j, k)` of a 3-D list, defaulting out of range. -/
def getD3 {α : Type} (m : List (List (List α))) (i j k : Nat) (dflt : α) : α :=
  ((m.getD i []).getD j []).getD k dflt

/-- Write entry `(i, j, k)` of a 3-D list. -/
def set3 {α : Type} (m : List (List (List α))) (i j k : Nat) (x : α) :
    List (List (List α)) :=
  m.set i ((m.getD i []).set j (((m.getD i []).getD j []).set k x))

/-- The zero-initialized state built by `GameStats.__init__`. -/
def initState (hp : Hparams) : GameStats where
  episode_len := List.replicate hp.batch_size 0
  rewards := List.replicate hp.batch_size (List.replicate hp.max_episode_len 0)
  root_values := List.replicate hp.batch_size (List.replicate hp.max_episode_len 0)
  children_visits :=
    List.replicate hp.batch_size
      (List.replicate hp.num_actions (List.replicate hp.max_episode_len 0))
  actions := List.replicate hp.batch_size (List.replicate hp.max_episode_len 0)
  player_ids := List.replicate hp.batch_size (List.replicate hp.max_episode_len 0)
  dones := List.replicate hp.batch_size false
  game_states := []

/-- A value supplied for one field of the `tensors_dict` argument of
`GameStats.append`: one entry per active slot (or, for `game_states`, one
whole-batch capture). -/
inductive FieldValue where
  | fvFloat (v : List ℚ)
  | fvInt (v : List Int)
  | fvVisits (v : List (List ℚ))
  | fvBool (v : List Bool)
  | fvState (v : List Int)
deriving DecidableEq

/-- The fatal errors `append` / `update_last_reward_and_values` can raise:
the explicit `ValueError` for an unknown key (lines 117-120), the explicit
`ValueError` for a failed visit read-back (lines 127-128), and the implicit
torch errors for out-of-range indices and mismatched shapes. -/
inductive AppendError where
  | unknownField (key : String)
  | readbackMismatch
  | indexError
  | shapeMismatch (key : String)
deriving DecidableEq

deriving instance DecidableEq for Except

/-- The keys of `self.stored_tensors` (simulation.py lines 88-96). -/
def storedKeys : List String :=
  ["rewards", "root_values", "children_visits", "actions", "player_ids",
   "dones", "game_states"]

/-- `dst[index, episode_len] = value` for a `(B, M)` tensor: the step-indexed
write performed for `rewards`, `root_values`, `actions`, `player_ids`
(simulation.py line 134), with torch's bounds errors made explicit. -/
def writeStepField {α : Type} (hp : Hparams) (key : String)
    (active : List Nat) (epLens : List Nat) (dst : List (List α))
    (v : List α) : Except AppendError (List (List α)) :=
  if v.length ≠ active.length then .error (.shapeMismatch key)
  else if ¬ (active.all (· < hp.batch_size) ∧ epLens.all (· < hp.max_episode_len)) then
    .error .indexError
  else
    .ok (((active.zip epLens).zip v).foldl
      (fun m se => set2 m se.1.1 se.1.2 se.2) dst)

/-- The batched `dst[index, :, episode_len] = value` scatter for the
`(B, A, M)` visits tensor (simulation.py line 124). -/
def visitsWritten (hp : Hparams) (active : List Nat) (epLens : List Nat)
    (dst : List (List (List ℚ))) (v : List (List ℚ)) : List (List (List ℚ)) :=
  ((active.zip epLens).zip v).foldl
    (fun m se =>
      (List.range hp.num_actions).foldl
        (fun m' a => set3 m' se.1.1 a se.1.2 (se.2.getD a 0)) m) dst

/-- `new_visits = dst[index, :, episode_len]` (simulation.py line 125). -/
def visitsReadback (hp : Hparams) (active : List Nat) (epLens : List Nat)
    (dst' : List (List (List ℚ))) : List (List ℚ) :=
  (active.zip epLens).map
    (fun se => (List.range hp.num_actions).map (fun a => getD3 dst' se.1 a se.2 0))

/-- `dst[index, :, episode_len] = value` followed by the read-back check of
simulation.py lines 124-128 for `children_visits`. -/
def writeVisitsField (hp : Hparams) (active : List Nat) (epLens : List Nat)
    (dst : List (List (List ℚ))) (v : List (List ℚ)) :
    Except AppendError (List (List (List ℚ))) :=
  if v.length ≠ active.length ∨ ¬ v.all (·.length = hp.num_actions) then
    .error (.shapeMismatch "children_visits")
  else if ¬ (active.all (· < hp.batch_size) ∧ epLens.all (· < hp.max_episode_len)) then
    .error .indexError
  else if visitsReadback hp active epLens (visitsWritten hp active epLens dst v) ≠ v then
    .error .readbackMismatch
  else .ok (visitsWritten hp active epLens dst v)

/-- `dst[index] = value` for the `(B,)` bool tensor `dones`
(simulation.py line 130). -/
def writeDonesField (hp : Hparams) (active : List Nat) (dst : List Bool)
    (v : List Bool) : Except AppendError (List Bool) :=
  if v.length ≠ active.length then .error (.shapeMismatch "dones")
  else if ¬ active.all (· < hp.batch_size) then .error .indexError
  else .ok ((active.zip v).foldl (fun d sv => d.set sv.1 sv.2) dst)

/-- Process one `(key, value)` entry of `tensors_dict` exactly as the loop
body of `GameStats.append` (simulation.py lines 116-134): unknown keys raise
first; `children_visits`, `dones` and `game_states` have special handling;
every other recognized key is a per-step write. -/
def applyField (hp : Hparams) (active : List Nat) (epLens : List Nat)
    (st : GameStats) (kv : String × FieldValue) :
    Except AppendError GameStats :=
  if kv.1 = "rewards" then
    match kv.2 with
    | .fvFloat v =>
      (writeStepField hp "rewards" active epLens st.rewards v).map
        (fun r => { st with rewards := r })
    | _ => .error (.shapeMismatch "rewards")
  else if kv.1 = "root_values" then
    match kv.2 with
    | .fvFloat v =>
      (writeStepField hp "root_values" active epLens st.root_values v).map
        (fun r => { st with root_values := r })
    | _ => .error (.shapeMismatch "root_values")
  else if kv.1 = "children_visits" then
    match kv.2 with
    | .fvVisits v =>
      (writeVisitsField hp active epLens st.children_visits v).map
        (fun r => { st with children_visits := r })
    | _ => .error (.shapeMismatch "children_visits")
  else if kv.1 = "actions" then
    match kv.2 with
    | .fvInt v =>
      (writeStepField hp "actions" active epLens st.actions v).map
        (fun r => { st with actions := r })
    | _ => .error (.shapeMismatch "actions")
  else if kv.1 = "player_ids" then
    match kv.2 with
    | .fvInt v =>
      (writeStepField hp "player_ids" active epLens st.player_ids v).map
        (fun r => { st with player_ids := r })
    | _ => .error (.shapeMismatch "player_ids")
  else if kv.1 = "dones" then
    match kv.2 with
    | .fvBool v =>
      (writeDonesField hp active st.dones v).map (fun r => { st with dones := r })
    | _ => .error (.shapeMismatch "dones")
  else if kv.1 = "game_states" then
    match kv.2 with
    | .fvState v => .ok { st with game_states := st.game_states ++ [v] }
    | _ => .error (.shapeMismatch "game_states")
  else .error (.unknownField kv.1)

/-- `self.episode_len[index] += 1`: each slot of `index` is set to its value
before the call plus one (duplicates are written the same value, as a torch
non-accumulating indexed add). -/
def incEpisodeLens (old : List Nat) (active : List Nat) : List Nat :=
  active.foldl (fun l s => l.set s (old.getD s 0 + 1)) old

/-- `GameStats.append` (simulation.py lines 112-136): `episode_len[index]`
is gathered first (an out-of-range slot raises there, before the dict loop),
each dict entry is processed in order, and finally `episode_len[index] += 1`. -/
def append (hp : Hparams) (st : GameStats) (active : List Nat)
    (dict : List (String × FieldValue)) : Except AppendError GameStats :=
  if ¬ active.all (· < hp.batch_size) then .error .indexError
  else
    match dict.foldlM
        (fun acc kv => applyField hp active (active.map (st.episode_len.getD · 0)) acc kv)
        st with
    | .error e => .error e
    | .ok st1 =>
      .ok { st1 with episode_len := incEpisodeLens st1.episode_len active }

/-- The python-style resolution of the (possibly negative) index
`episode_len - 1` used by `update_last_reward_and_values`. -/
def resolvedLast (epl : Nat) (m : Nat) : Int :=
  if (epl : Int) - 1 < 0 then (m : Int) + ((epl : Int) - 1) else (epl : Int) - 1

/-- The scatter `self.rewards[win_index, episode_len - 1] = rewards`
performed by `update_last_reward_and_values` (simulation.py line 140). -/
def lastRewardWrites (hp : Hparams) (st : GameStats) (winIndex : List Nat)
    (rws : List ℚ) : List (List ℚ) :=
  (winIndex.zip rws).foldl
    (fun r sv =>
      set2 r sv.1
        (resolvedLast (st.episode_len.getD sv.1 0) hp.max_episode_len).toNat
        sv.2) st.rewards

/-- `GameStats.update_last_reward_and_values` (simulation.py lines 138-140):
`self.rewards[win_index, episode_len - 1] = rewards`, with torch's negative
indexing (`-1` selects the last column) and its bounds/shape errors made
explicit.  Only `rewards` is touched. -/
def updateLast (hp : Hparams) (st : GameStats) (winIndex : List Nat)
    (rws : List ℚ) : Except AppendError GameStats :=
  if ¬ winIndex.all (· < hp.batch_size) then .error .indexError
  else if rws.length ≠ winIndex.length then .error (.shapeMismatch "rewards")
  else if ¬ winIndex.all (fun s =>
      0 ≤ resolvedLast (st.episode_len.getD s 0) hp.max_episode_len ∧
      resolvedLast (st.episode_len.getD s 0) hp.max_episode_len < hp.max_episode_len) then
    .error .indexError
  else
    .ok { st with rewards := lastRewardWrites hp st winIndex rws }

/-- One training sample produced by `make_target` (the `TrainElement`
dataclass restricted to what one batch row carries). -/
structure TrainElement where
  start_index : Nat
  values : List ℝ
  rewards : List ℚ
  children_visits : List (List ℚ)
  initial_game_state : Int
  actions : List Int
  sample_len : Nat
  player_ids : List Int

/-- An all-empty element, used as the default of list lookups. -/
def emptyElement : TrainElement := ⟨0, [], [], [], 0, [], 0, []⟩

/-- `torch.logspace(0, 1, n, base=d)` (simulation.py line 161): `n` entries
whose exponents are evenly spaced between 0 and 1, i.e. entry `j` is
`d ^ (j / (n - 1))`; for `n = 1` the single entry is `d ^ 0 = 1`. -/
noncomputable def discountMult (d : ℚ) (n : Nat) (j : Nat) : ℝ :=
  if n = 1 then 1 else (d : ℝ) ^ ((j : ℝ) / ((n : ℝ) - 1))

/-- `roll_by_gather(discount_mult, 1, start_unroll_index)` (simulation.py
lines 52-63 and 189): entry `j` of the rolled row is entry
`(j - shift) mod n` of `discount_mult`, with python's nonnegative `%`. -/
noncomputable def rolledDiscount (d : ℚ) (n : Nat) (shift : Nat) : List ℝ :=
  (List.range n).map
    (fun j => discountMult d n ((Int.ofNat j - Int.ofNat shift).emod (Int.ofNat n)).toNat)

/-- The two `torch.where` masks of simulation.py lines 186-187 applied to row
`b` of `self.rewards`: positions before `start_unroll_index` or at/after
`bootstrap_index = start_unroll_index + td_steps` become 0. -/
def maskedRewardsRow (hp : Hparams) (st : GameStats) (b s' : Nat) : List ℚ :=
  (List.range hp.max_episode_len).map
    (fun j => if j < s' then 0
      else if s' + hp.td_steps ≤ j then 0
      else getD2 st.rewards b j 0)

/-- Elementwise product of two rows under torch broadcasting (used by
`rewards * discount`, simulation.py line 190): equal lengths multiply
pointwise, a length-1 row broadcasts across the other; other combinations
raise in torch and are guarded out by `makeTargetOk`. -/
noncomputable def broadcastMul (a b : List ℝ) : List ℝ :=
  if a.length = b.length then a.zipWith (· * ·) b
  else if a.length = 1 then b.map (fun y => a.getD 0 0 * y)
  else if b.length = 1 then a.map (fun x => x * b.getD 0 0)
  else []

/-- `(rewards * discount).sum(1)` for row `b` (simulation.py lines 186-191). -/
noncomputable def discountedRewardSum (hp : Hparams) (st : GameStats) (b s' : Nat) : ℝ :=
  (broadcastMul ((maskedRewardsRow hp st b s').map (fun q => (Rat.cast q : ℝ)))
    (rolledDiscount hp.value_discount hp.td_steps s')).sum

/-- The bootstrap contribution for row `b` (simulation.py lines 167-181):
`root_values[b, s' + td_steps] * value_discount ** td_steps` when the
bootstrap index is strictly below `episode_len[b]`, else 0. -/
noncomputable def bootstrapValue (hp : Hparams) (st : GameStats) (b s' : Nat) : ℝ :=
  if s' + hp.td_steps < st.episode_len.getD b 0 then
    ((getD2 st.root_values b (s' + hp.td_steps) 0 : ℚ) : ℝ) *
      (hp.value_discount : ℝ) ^ hp.td_steps
  else 0

/-- `target_values[b, k]` (simulation.py lines 176-195). -/
noncomputable def valueEntry (hp : Hparams) (st : GameStats) (b s k : Nat) : ℝ :=
  bootstrapValue hp st b (s + k) + discountedRewardSum hp st b (s + k)

/-- `sample_len` for one row: one increment per unroll step `k` with
`s + k < episode_len` (simulation.py lines 183 and 202). -/
def sampleLen (hp : Hparams) (epl s : Nat) : Nat :=
  ((List.range (hp.num_unroll_steps + 1)).filter (fun k => s + k < epl)).length

/-- The `TrainElement` assembled for batch row `b` with start index `s`
(simulation.py lines 194-216).  Note that `target_rewards`,
`target_children_visits`, `taken_actions` and `player_ids` copy column
`unroll_step` of the stored tensors — the absolute step index `k`, not
`s + k` (lines 196-200) — while `values` and `initial_game_state` use
`s + k` and `s`. -/
noncomputable def buildElement (hp : Hparams) (st : GameStats) (s b : Nat) :
    TrainElement where
  start_index := s
  values := (List.range (hp.num_unroll_steps + 1)).map (fun k => valueEntry hp st b s k)
  rewards := (List.range (hp.num_unroll_steps + 1)).map (fun k => getD2 st.rewards b k 0)
  children_visits := (List.range hp.num_actions).map
    (fun a => (List.range (hp.num_unroll_steps + 1)).map
      (fun k => getD3 st.children_visits b a k 0))
  initial_game_state := (st.game_states.getD s []).getD b 0
  actions := (List.range (hp.num_unroll_steps + 1)).map (fun k => getD2 st.actions b k 0)
  sample_len := sampleLen hp (st.episode_len.getD b 0) s
  player_ids := (List.range (hp.num_unroll_steps + 1)).map (fun k => getD2 st.player_ids b k 0)

/-- All samples of one `make_target` call (simulation.py lines 204-218). -/
noncomputable def buildTargets (hp : Hparams) (st : GameStats) (start : List Nat) :
    List TrainElement :=
  (List.range hp.batch_size).map (fun b => buildElement hp st (start.getD b 0) b)

/-- How many batch rows satisfy `bootstrap_index < episode_len` at unroll
step `k` (`bootstrap_update_index.sum()`, simulation.py line 168). -/
def bootstrapCount (hp : Hparams) (st : GameStats) (start : List Nat) (k : Nat) : Nat :=
  ((List.range hp.batch_size).filter
    (fun b => start.getD b 0 + k + hp.td_steps < st.episode_len.getD b 0)).length

/-- The conditions under which `make_target` runs to completion instead of
raising a torch shape/index error: the sample batch matches the stored batch
(lines 196-200 assign `(B,)`-shaped columns into the sample-indexed target
tensors), every copied column index is in range (lines 196-200), the
`(B, max_episode_len) * (B, td_steps)` product of line 190 is broadcastable,
and at every unroll step the bootstrap mask is all-false or all-true — line
181 indexes `root_values` with `batch_index[bootstrap_update_index]` against
the full-length `bootstrap_index`, which only broadcasts in those two cases. -/
def makeTargetOk (hp : Hparams) (st : GameStats) (start : List Nat) : Prop :=
  start.length = hp.batch_size ∧
  hp.num_unroll_steps < hp.max_episode_len ∧
  (hp.td_steps = hp.max_episode_len ∨ hp.td_steps = 1 ∨ hp.max_episode_len = 1) ∧
  ∀ k ∈ List.range (hp.num_unroll_steps + 1),
    bootstrapCount hp st start k = 0 ∨ bootstrapCount hp st start k = hp.batch_size

instance (hp : Hparams) (st : GameStats) (start : List Nat) :
    Decidable (makeTargetOk hp st start) := by
  unfold makeTargetOk; infer_instance

/-- `GameStats.make_target` (simulation.py lines 142-218). -/
noncomputable def makeTarget (hp : Hparams) (st : GameStats) (start : List Nat) :
    Except String (List TrainElement) :=
  if makeTargetOk hp st start then .ok (buildTargets hp st start)
  else .error "make_target raises a shape or index error"

/-- Modelled from the spec's words for the target value (spec §4.3 and claim
C2): sum over `j = 0 .. td_steps - 1` of `discount ^ j` times the stored
reward at absolute step `s + k + j`, contributing 0 at or beyond the episode
end, plus `discount ^ td_steps` times the stored root value at the bootstrap
index when that index is strictly inside the episode.  This is the claim's
formula, kept separate from the code embedding for comparison. -/
noncomputable def claimTargetValue (hp : Hparams) (st : GameStats) (b s k : Nat) : ℝ :=
  ((List.range hp.td_steps).map
    (fun j => if s + k + j < st.episode_len.getD b 0 then
        ((hp.value_discount : ℝ) ^ j) * ((getD2 st.rewards b (s + k + j) 0 : ℚ) : ℝ)
      else 0)).sum +
  (if s + k + hp.td_steps < st.episode_len.getD b 0 then
      ((hp.value_discount : ℝ) ^ hp.td_steps) *
        ((getD2 st.root_values b (s + k + hp.td_steps) 0 : ℚ) : ℝ)
    else 0)

/-- The closed form of what the code actually computes for `target_values`:
rewards are masked only by the window `[s', s' + td_steps)` (never by the
episode end), each surviving reward at offset `i = j - s'` is scaled by the
logspace entry `discount ^ (i / (td_steps - 1))`, and the bootstrap term is
as in the spec. -/
noncomputable def codeTargetValue (hp : Hparams) (st : GameStats) (b s' : Nat) : ℝ :=
  ((List.range hp.max_episode_len).map
    (fun j => if s' ≤ j ∧ j < s' + hp.td_steps then
        ((getD2 st.rewards b j 0 : ℚ) : ℝ) *
          discountMult hp.value_discount hp.td_steps (j - s')
      else 0)).sum + bootstrapValue hp st b s'

/-! ### Concrete fixtures used by counterexamples and witnesses -/

/-- Fixture: `B = 1`, `M = 2`, `A = 1`, `unroll_steps = 0`, `td_steps = 1`,
`discount = 1`. -/
def hpA : Hparams := ⟨1, 2, 1, 0, 1, 1⟩

/-- Fixture state for `hpA`: a finished 2-step episode of slot 0 with rewards
10 and 20, visit counts 30 and 40, and two recorded observations. -/
def stA : GameStats :=
  ⟨[2], [[10, 20]], [[0, 0]], [[[30, 40]]], [[0, 0]], [[0, 0]], [false], [[0], [0]]⟩

/-- Fixture: `B = 1`, `M = 2`, `A = 1`, `unroll_steps = 0`, `td_steps = 2`,
`discount = 1/2`. -/
def hpB : Hparams := ⟨1, 2, 1, 0, 2, 1/2⟩

/-- Fixture state for `hpB`: a 1-step episode whose reward buffer holds a
nonzero entry at step 1, beyond the episode end (reachable: a terminal-win
correction via `update_last_reward_and_values` on an empty opposing episode
writes past the episode end, see claim C10). -/
def stB : GameStats :=
  ⟨[1], [[0, 5]], [[0, 0]], [[[0, 0]]], [[0, 0]], [[0, 0]], [false], [[0]]⟩

/-- Fixture state identical to `stB` except that the reward stored at step 1
— beyond the episode end `episode_len = 1` — is 0 instead of 5. -/
def stB2 : GameStats :=
  ⟨[1], [[0, 0]], [[0, 0]], [[[0, 0]]], [[0, 0]], [[0, 0]], [false], [[0]]⟩

/-- Fixture state identical to `stA` except that the reward stored at step 0
— outside the length-1 window starting at `start_index = 1` — is 99. -/
def stA2 : GameStats :=
  ⟨[2], [[99, 20]], [[0, 0]], [[[30, 40]]], [[0, 0]], [[0, 0]], [false], [[0], [0]]⟩

/-- Fixture: `B = 1`, `M = 3`, `A = 1`, `unroll_steps = 0`, `td_steps = 3`,
`discount = 1/4`. -/
def hpC : Hparams := ⟨1, 3, 1, 0, 3, 1/4⟩

/-- Fixture state for `hpC`: a finished 3-step episode with a single nonzero
reward at step 1. -/
def stC : GameStats :=
  ⟨[3], [[0, 1, 0]], [[0, 0, 0]], [[[0, 0, 0]]], [[0, 0, 0]], [[0, 0, 0]],
   [false], [[0]]⟩

/-- Fixture: `B = 2`, `M = 3`, `A = 2`, `unroll_steps = 1`, `td_steps = 3`,
`discount = 1/2`, used by the `append` / `update_last` witnesses. -/
def hpW : Hparams := ⟨2, 3, 2, 1, 3, 1/2⟩

/-- Fixture state for `hpW`: slot 0 has a 2-step episode, slot 1 a 1-step
episode. -/
def stW : GameStats :=
  ⟨[2, 1], [[1, 2, 0], [3, 0, 0]], [[0, 0, 0], [0, 0, 0]],
   [[[0, 0, 0], [0, 0, 0]], [[0, 0, 0], [0, 0, 0]]],
   [[0, 0, 0], [0, 0, 0]], [[0, 0, 0], [0, 0, 0]], [false, false], [[7, 8]]⟩

/-- Fixture state for `hpW` with an empty episode on slot 1 (used by the
negative-indexing claim C10). -/
def stW0 : GameStats :=
  ⟨[2, 0], [[1, 2, 0], [3, 0, 0]], [[0, 0, 0], [0, 0, 0]],
   [[[0, 0, 0], [0, 0, 0]], [[0, 0, 0], [0, 0, 0]]],
   [[0, 0, 0], [0, 0, 0]], [[0, 0, 0], [0, 0, 0]], [false, false], [[7, 8]]⟩

/-- The state reached from `stW` by appending `dictW` for both slots
(used as the concrete result in the claim C3 witness). -/
def stW1 : GameStats :=
  ⟨[3, 2], [[1, 2, 5], [3, 6, 0]], [[0, 0, 7], [0, 8, 0]],
   [[[0, 0, 1], [0, 0, 2]], [[0, 3, 0], [0, 4, 0]]],
   [[0, 0, 1], [0, 0, 0]], [[0, 0, 1], [0, 2, 0]], [true, false],
   [[7, 8], [9, 10]]⟩

/-- The state reached from `stW` by appending only done flags
(used as the concrete result in the claim C9 witness). -/
def stW2 : GameStats :=
  ⟨[3, 2], [[1, 2, 0], [3, 0, 0]], [[0, 0, 0], [0, 0, 0]],
   [[[0, 0, 0], [0, 0, 0]], [[0, 0, 0], [0, 0, 0]]],
   [[0, 0, 0], [0, 0, 0]], [[0, 0, 0], [0, 0, 0]], [true, false], [[7, 8]]⟩

/-- The state reached from `stW` by `update_last_reward_and_values` on both
slots with rewards 50 and 60 (concrete result in the claim C5 witness). -/
def stW3 : GameStats :=
  ⟨[2, 1], [[1, 50, 0], [60, 0, 0]], [[0, 0, 0], [0, 0, 0]],
   [[[0, 0, 0], [0, 0, 0]], [[0, 0, 0], [0, 0, 0]]],
   [[0, 0, 0], [0, 0, 0]], [[0, 0, 0], [0, 0, 0]], [false, false], [[7, 8]]⟩

/-- The state reached from `stW0` by `update_last_reward_and_values` on the
empty-episode slot 1 with reward -1 (concrete result in the claim C10
witness: the write lands at the last buffer column). -/
def stW4 : GameStats :=
  ⟨[2, 0], [[1, 2, 0], [3, 0, -1]], [[0, 0, 0], [0, 0, 0]],
   [[[0, 0, 0], [0, 0, 0]], [[0, 0, 0], [0, 0, 0]]],
   [[0, 0, 0], [0, 0, 0]], [[0, 0, 0], [0, 0, 0]], [false, false], [[7, 8]]⟩

/-- The full recognized-field dictionary passed by `run_single_game`
(simulation.py lines 310-318), with concrete values for the `hpW` fixture. -/
def dictW : List (String × FieldValue) :=
  [("children_visits", FieldValue.fvVisits [[1, 2], [3, 4]]),
   ("root_values", FieldValue.fvFloat [7, 8]),
   ("game_states", FieldValue.fvState [9, 10]),
   ("rewards", FieldValue.fvFloat [5, 6]),
   ("actions", FieldValue.fvInt [1, 0]),
   ("dones", FieldValue.fvBool [true, false]),
   ("player_ids", FieldValue.fvInt [1, 2])]

/-- Well-formedness of a stored state: every buffer has the shape
`GameStats.__init__` allocates for `hp` (lines 79-86). -/
def WF (hp : Hparams) (st : GameStats) : Prop :=
  st.episode_len.length = hp.batch_size ∧
  st.rewards.length = hp.batch_size ∧
  (∀ r ∈ st.rewards, r.length = hp.max_episode_len) ∧
  st.root_values.length = hp.batch_size ∧
  (∀ r ∈ st.root_values, r.length = hp.max_episode_len) ∧
  st.children_visits.length = hp.batch_size ∧
  (∀ p ∈ st.children_visits, p.length = hp.num_actions ∧
    ∀ r ∈ p, r.length = hp.max_episode_len) ∧
  st.actions.length = hp.batch_size ∧
  (∀ r ∈ st.actions, r.length = hp.max_episode_len) ∧
  st.player_ids.length = hp.batch_size ∧
  (∀ r ∈ st.player_ids, r.length = hp.max_episode_len) ∧
  st.dones.length = hp.batch_size

instance (hp : Hparams) (st : GameStats) : Decidable (WF hp st) := by
  unfold WF
  infer_instance

/-! ### Shared helper lemmas -/

/-- `logspace` on one point is the constant 1. -/
theorem discountMult_one (d : ℚ) (j : Nat) : discountMult d 1 j = 1 := by
  simp [discountMult]

/-- The first `logspace` entry is `d ^ 0 = 1`. -/
theorem discountMult_exp_zero (d : ℚ) (n : Nat) : discountMult d n 0 = 1 := by
  unfold discountMult
  split
  · rfl
  · norm_num

/-- For `td_steps = 2` the second `logspace` entry is `d ^ (1/1) = d`. -/
theorem discountMult_two_one (d : ℚ) : discountMult d 2 1 = (d : ℝ) := by
  unfold discountMult
  norm_num

/-- For `td_steps = 3`, `base = 1/4`, the middle `logspace` entry is
`(1/4) ^ (1/2) = 1/2` — not `(1/4) ^ 1`. -/
theorem discountMult_quarter_one : discountMult (1/4) 3 1 = 1/2 := by
  unfold discountMult
  norm_num
  rw [show ((1:ℝ)/4) = (1/2) ^ (2:ℕ) by norm_num]
  rw [← Real.rpow_natCast ((1:ℝ)/2) 2, ← Real.rpow_mul (by norm_num : (0:ℝ) ≤ 1/2)]
  norm_num

/-- For `td_steps = 3`, `base = 1/4`, the last `logspace` entry is
`(1/4) ^ (2/2) = 1/4`. -/
theorem discountMult_quarter_two : discountMult (1/4) 3 2 = 1/4 := by
  unfold discountMult
  norm_num

/-- Indexing a mapped range below its length. -/
theorem getD_map_range {α : Type} (n i : Nat) (f : Nat → α) (d : α) (h : i < n) :
    ((List.range n).map f).getD i d = f i := by
  rw [List.getD_eq_getElem?_getD, List.getElem?_map, List.getElem?_range h]
  rfl

/-- A successful `make_target` call passed its guard and returned
`buildTargets`. -/
theorem makeTarget_ok_elim {hp : Hparams} {st : GameStats} {start : List Nat}
    {tes : List TrainElement} (h : makeTarget hp st start = .ok tes) :
    makeTargetOk hp st start ∧ tes = buildTargets hp st start := by
  unfold makeTarget at h
  split at h
  · exact ⟨by assumption, (Except.ok.injEq _ _).mp h |>.symm⟩
  · cases h

/-- Row `b < B` of a successful `make_target` result is the element built
for start index `start[b]`. -/
theorem makeTarget_row {hp : Hparams} {st : GameStats} {start : List Nat}
    {tes : List TrainElement} (h : makeTarget hp st start = .ok tes)
    {b : Nat} (hb : b < hp.batch_size) :
    tes.getD b emptyElement = buildElement hp st (start.getD b 0) b := by
  rcases makeTarget_ok_elim h with ⟨-, rfl⟩
  unfold buildTargets
  rw [getD_map_range _ _ _ _ hb]

/-- On the equal-width regime `td_steps = max_episode_len` (the only
non-degenerate one in which line 190's product is well-shaped), the
mask-roll-broadcast pipeline equals the direct window sum. -/
theorem discountedRewardSum_closed_of_eq (hp : Hparams) (st : GameStats) (b s' : Nat)
    (hM : hp.td_steps = hp.max_episode_len) :
    discountedRewardSum hp st b s' =
    ((List.range hp.max_episode_len).map
      (fun j => if s' ≤ j ∧ j < s' + hp.td_steps then
          ((getD2 st.rewards b j 0 : ℚ) : ℝ) *
            discountMult hp.value_discount hp.td_steps (j - s')
        else 0)).sum := by
  unfold discountedRewardSum broadcastMul
  rw [if_pos (by simp [maskedRewardsRow, rolledDiscount, hM])]
  unfold maskedRewardsRow rolledDiscount
  rw [List.map_map, hM, List.zipWith_map, List.zipWith_same]
  refine congrArg List.sum (List.map_congr_left ?_)
  intro j hj
  rw [List.mem_range] at hj
  simp only [Int.ofNat_eq_coe, Function.comp]
  by_cases hjs : j < s'
  · simp [hjs, show ¬ (s' ≤ j) from by omega]
  · by_cases hbs : s' + hp.max_episode_len ≤ j
    · simp [hjs, hbs, show ¬ (j < s' + hp.max_episode_len) from by omega]
    · have h1 : (j : Int) - (s' : Int) = ((j - s' : Nat) : Int) := by omega
      have h2 : ((j - s' : Nat) : Int).emod ((hp.max_episode_len : Nat) : Int) =
          ((j - s' : Nat) : Int) := by
        apply Int.emod_eq_of_lt
        · omega
        · omega
      simp only [h1, h2, Int.toNat_natCast]
      simp [hjs, hbs, show s' ≤ j from by omega,
        show j < s' + hp.max_episode_len from by omega]

/-- The window closed form of the reward part of the value target, for the
two regimes in which `make_target` runs (`td_steps = max_episode_len` or
`td_steps = 1`). -/
theorem discountedRewardSum_closed (hp : Hparams) (st : GameStats) (b s' : Nat)
    (hN : hp.td_steps = hp.max_episode_len ∨ hp.td_steps = 1) :
    discountedRewardSum hp st b s' =
    ((List.range hp.max_episode_len).map
      (fun j => if s' ≤ j ∧ j < s' + hp.td_steps then
          ((getD2 st.rewards b j 0 : ℚ) : ℝ) *
            discountMult hp.value_discount hp.td_steps (j - s')
        else 0)).sum := by
  rcases hN with hM | h1
  · exact discountedRewardSum_closed_of_eq hp st b s' hM
  · by_cases hM : hp.max_episode_len = 1
    · exact discountedRewardSum_closed_of_eq hp st b s' (h1.trans hM.symm)
    · unfold discountedRewardSum broadcastMul
      rw [if_neg (by simp [maskedRewardsRow, rolledDiscount, h1]; omega),
        if_neg (by simp [maskedRewardsRow]; omega),
        if_pos (by simp [rolledDiscount, h1])]
      rw [List.map_map]
      unfold maskedRewardsRow
      rw [List.map_map]
      refine congrArg List.sum (List.map_congr_left ?_)
      intro j hj
      rw [List.mem_range] at hj
      have hone : (rolledDiscount hp.value_discount hp.td_steps s').getD 0 0 = 1 := by
        simp [rolledDiscount, h1, discountMult_one]
      rw [hone]
      simp only [Function.comp]
      by_cases hjs : j < s'
      · simp [hjs, show ¬ (s' ≤ j) from by omega]
      · by_cases hbs : s' + hp.td_steps ≤ j
        · simp [hjs, hbs, show ¬ (j < s' + hp.td_steps) from by omega]
        · have hjeq : j - s' = 0 := by omega
          simp [hjs, hbs, show s' ≤ j from by omega,
            show j < s' + hp.td_steps from by omega,
            hjeq, h1, discountMult_one, show ¬ (s' + 1 ≤ j) from by omega,
            show j < s' + 1 from by omega]

/-- `target_values[b, k]` in closed form. -/
theorem valueEntry_closed (hp : Hparams) (st : GameStats) (b s k : Nat)
    (hN : hp.td_steps = hp.max_episode_len ∨ hp.td_steps = 1) :
    valueEntry hp st b s k = codeTargetValue hp st b (s + k) := by
  unfold valueEntry codeTargetValue
  rw [discountedRewardSum_closed hp st b (s + k) hN, add_comm]

/-- Summing a window of width one picks the single in-range element. -/
theorem sum_indicator_range (m s' : Nat) (f : Nat → ℝ) :
    ((List.range m).map (fun j => if s' ≤ j ∧ j < s' + 1 then f j else 0)).sum =
    if s' < m then f s' else 0 := by
  induction m with
  | zero => simp
  | succ n ih =>
    rw [List.range_succ, List.map_append, List.sum_append, ih]
    by_cases h : s' < n
    · simp [h, show ¬ (s' ≤ n ∧ n < s' + 1) from by omega, show s' < n + 1 from by omega]
    · by_cases h2 : s' = n
      · subst h2
        simp [h]
      · simp [h, show ¬ (s' ≤ n ∧ n < s' + 1) from by omega,
          show ¬ (s' < n + 1) from by omega]

/-! ### Claim C1 -/

/-- Claim C1 (evaluation at the failing input): with `start_index = 1` on a
2-step episode whose stored rewards are `[10, 20]` and stored step-1 visit
count is 40, `make_target` succeeds and returns `target_reward[0] = 10` and
`target_visit[0] = 30` — the stored values at absolute step `0 = k`, not the
values `20` / `40` at step `start_index + k = 1` required by the claim, even
though step 1 is within the episode.  The same call's `target_value[0]` is
20, computed from `start_index + k`, exhibiting the misalignment. -/
theorem C1_make_target_copies_absolute_columns :
    (makeTarget hpA stA [1]).map (List.map TrainElement.rewards) = .ok [[10]] ∧
    (makeTarget hpA stA [1]).map (List.map TrainElement.children_visits) = .ok [[[30]]] ∧
    (makeTarget hpA stA [1]).map (List.map TrainElement.values) = .ok [[(20:ℝ)]] ∧
    getD2 stA.rewards 0 1 0 = 20 ∧
    getD3 stA.children_visits 0 0 1 0 = 40 ∧
    (1 : Nat) < stA.episode_len.getD 0 0 ∧
    (10 : ℚ) ≠ 20 ∧ (30 : ℚ) ≠ 40 := by
  refine ⟨?_, ?_, ?_, by decide, by decide, by decide, by decide, by decide⟩ <;>
    rw [makeTarget, if_pos (by decide : makeTargetOk hpA stA [1])] <;>
    simp [buildTargets, buildElement, hpA, stA, getD2, getD3, List.range_succ,
      Except.map, valueEntry, bootstrapValue, discountedRewardSum, maskedRewardsRow,
      broadcastMul, rolledDiscount, discountMult_one, sampleLen]

/-! ### Claim C2 -/

/-- Claim C2 (counterexample): two concrete calls on which the claimed
formula (`claimTargetValue`, transcribed from the spec sentence) differs
from what `make_target` returns.  First, with `td_steps = 2 = M`,
`discount = 1/2`, a 1-step episode whose reward buffer holds 5 at step 1
(beyond the episode end): the claim's episode-end mask gives 0, the code
returns `5 * (1/2) = 5/2` because rewards are only masked by the window,
never by episode end.  Second, with `td_steps = 3`, `discount = 1/4`, a
3-step episode with reward 1 at step 1: the claim gives `(1/4)^1 * 1 = 1/4`,
the code returns `(1/4)^(1/2) * 1 = 1/2` because `logspace(0, 1, 3)` spaces
the exponents over `[0, 1]`, not over `{0, 1, 2}`. -/
theorem C2_counterexample :
    (claimTargetValue hpB stB 0 0 0 = 0 ∧
      (makeTarget hpB stB [0]).map (List.map TrainElement.values) = .ok [[(5:ℝ)/2]] ∧
      ((5:ℝ)/2 ≠ 0)) ∧
    (claimTargetValue hpC stC 0 0 0 = 1/4 ∧
      (makeTarget hpC stC [0]).map (List.map TrainElement.values) = .ok [[(1:ℝ)/2]] ∧
      ((1:ℝ)/2 ≠ (1:ℝ)/4)) := by
  refine ⟨⟨?_, ?_, by norm_num⟩, ⟨?_, ?_, by norm_num⟩⟩
  · simp [claimTargetValue, hpB, stB, getD2, List.range_succ]
  · rw [makeTarget, if_pos (by decide : makeTargetOk hpB stB [0])]
    simp [buildTargets, buildElement, hpB, stB, getD2, List.range_succ, valueEntry,
      bootstrapValue, discountedRewardSum, maskedRewardsRow, broadcastMul,
      rolledDiscount, discountMult_two_one, discountMult_exp_zero, Except.map]
    norm_num [discountMult_two_one]
  · simp [claimTargetValue, hpC, stC, getD2, List.range_succ]
  · rw [makeTarget, if_pos (by decide : makeTargetOk hpC stC [0])]
    simp [buildTargets, buildElement, hpC, stC, getD2, List.range_succ, valueEntry,
      bootstrapValue, discountedRewardSum, maskedRewardsRow, broadcastMul,
      rolledDiscount, discountMult_quarter_one, discountMult_quarter_two,
      discountMult_exp_zero, Except.map]
    norm_num [show ((1:Int).emod (3:Int)).toNat = 1 from rfl, discountMult_quarter_one]

/-- Claim C2 (amended): for every successful `make_target` call in a regime
where the reward/discount product is aligned (`td_steps = max_episode_len`
or `td_steps = 1`), `target_value[k]` for row `b` equals the sum over the
buffer positions `j` inside the window `[s+k, s+k+td_steps)` — masked only
by the window, not by the episode end — of the stored reward at `j` scaled
by the logspace entry `discount ^ ((j-s-k)/(td_steps-1))`, plus
`discount ^ td_steps` times the stored root value at the bootstrap index
when that index is strictly inside the episode, else 0. -/
theorem C2_amended_value_formula (hp : Hparams) (st : GameStats) (start : List Nat)
    (tes : List TrainElement) (hok : makeTarget hp st start = .ok tes)
    (hN : hp.td_steps = hp.max_episode_len ∨ hp.td_steps = 1)
    (b k : Nat) (hb : b < hp.batch_size) (hk : k ≤ hp.num_unroll_steps) :
    (tes.getD b emptyElement).values.getD k 0 =
      codeTargetValue hp st b (start.getD b 0 + k) := by
  rw [makeTarget_row hok hb]
  show ((List.range (hp.num_unroll_steps + 1)).map
    (fun k' => valueEntry hp st b (start.getD b 0) k')).getD k 0 = _
  rw [getD_map_range _ _ _ _ (by omega)]
  exact valueEntry_closed hp st b (start.getD b 0) k hN

/-- Claim C2 (witness for the amended theorem) at the `hpB`/`stB` fixture. -/
theorem C2_amended_witness :
    ((buildTargets hpB stB [0]).getD 0 emptyElement).values.getD 0 0 =
      codeTargetValue hpB stB 0 0 := by
  have h := C2_amended_value_formula hpB stB [0] (buildTargets hpB stB [0])
    (by rw [makeTarget, if_pos (by decide : makeTargetOk hpB stB [0])])
    (Or.inl rfl) 0 0 (by decide) (by decide)
  simpa using h

/-! ### Claim C7 -/

/-- Claim C7: when `td_steps = 1` and `discount = 1`, `target_value[k]` of a
successful `make_target` call equals the stored reward at step
`start_index + k` (0 when that step is past the reward buffer) plus the
stored root value at `start_index + k + 1` when that index is strictly
inside the episode, and the stored reward alone otherwise. -/
theorem C7_td1_degenerate (hp : Hparams) (st : GameStats) (start : List Nat)
    (tes : List TrainElement) (hok : makeTarget hp st start = .ok tes)
    (htd : hp.td_steps = 1) (hd : hp.value_discount = 1)
    (b k : Nat) (hb : b < hp.batch_size) (hk : k ≤ hp.num_unroll_steps)
    (hrow : (st.rewards.getD b []).length = hp.max_episode_len) :
    (tes.getD b emptyElement).values.getD k 0 =
      ((getD2 st.rewards b (start.getD b 0 + k) 0 : ℚ) : ℝ) +
      (if start.getD b 0 + k + 1 < st.episode_len.getD b 0 then
        ((getD2 st.root_values b (start.getD b 0 + k + 1) 0 : ℚ) : ℝ) else 0) := by
  rw [makeTarget_row hok hb]
  show ((List.range (hp.num_unroll_steps + 1)).map
    (fun k' => valueEntry hp st b (start.getD b 0) k')).getD k 0 = _
  rw [getD_map_range _ _ _ _ (by omega)]
  rw [valueEntry_closed hp st b (start.getD b 0) k (Or.inr htd)]
  unfold codeTargetValue bootstrapValue
  rw [htd, hd]
  rw [show (fun j => if start.getD b 0 + k ≤ j ∧ j < start.getD b 0 + k + 1 then
      ((getD2 st.rewards b j 0 : ℚ) : ℝ) * discountMult 1 1 (j - (start.getD b 0 + k))
    else 0) = (fun j => if start.getD b 0 + k ≤ j ∧ j < start.getD b 0 + k + 1 then
      ((getD2 st.rewards b j 0 : ℚ) : ℝ) else 0) from funext (fun j => by
        rw [discountMult_one, mul_one])]
  rw [sum_indicator_range]
  by_cases hin : start.getD b 0 + k < hp.max_episode_len
  · rw [if_pos hin]
    simp only [Rat.cast_one, one_pow, mul_one]
  · rw [if_neg hin]
    have hz : getD2 st.rewards b (start.getD b 0 + k) 0 = 0 := by
      unfold getD2
      exact List.getD_eq_default _ _ (by omega)
    rw [hz]
    simp only [Rat.cast_one, Rat.cast_zero, one_pow, mul_one, zero_add, add_zero]

/-- Claim C7 (witness): at the `hpA`/`stA` fixture, `target_value[0]` with
`start_index = 1` is the stored reward 20 (the bootstrap index 2 is not
inside the 2-step episode). -/
theorem C7_witness :
    ((buildTargets hpA stA [1]).getD 0 emptyElement).values.getD 0 0 = 20 := by
  have h := C7_td1_degenerate hpA stA [1] (buildTargets hpA stA [1])
    (by rw [makeTarget, if_pos (by decide : makeTargetOk hpA stA [1])])
    rfl rfl 0 0 (by decide) (by decide) (by decide)
  simpa [stA, getD2] using h

/-! ### Claim C6 -/

/-- Counting over a `Finset.range` equals counting over the corresponding
list range. -/
theorem card_filter_range (n : Nat) (p : Nat → Prop) [DecidablePred p] :
    ((Finset.range n).filter p).card =
    ((List.range n).filter (fun k => decide (p k))).length := by
  induction n with
  | zero => simp
  | succ m ih =>
    rw [Finset.range_succ, Finset.filter_insert, List.range_succ, List.filter_append,
      List.length_append]
    by_cases h : p m
    · rw [if_pos h, Finset.card_insert_of_not_mem (by simp)]
      simp [h, ih]
    · rw [if_neg h]
      simp [h, ih]

/-- Claim C6: the `sample_len` of row `b` of a successful `make_target` call
is the number of offsets `k ∈ 0..unroll_steps` with
`start_index + k < episode_len`, and whenever `start_index + unroll_steps`
is at or beyond `episode_len` it is strictly less than `unroll_steps + 1`. -/
theorem C6_sample_len (hp : Hparams) (st : GameStats) (start : List Nat)
    (tes : List TrainElement) (hok : makeTarget hp st start = .ok tes)
    (b : Nat) (hb : b < hp.batch_size) :
    (tes.getD b emptyElement).sample_len =
      ((Finset.range (hp.num_unroll_steps + 1)).filter
        (fun k => start.getD b 0 + k < st.episode_len.getD b 0)).card ∧
    (st.episode_len.getD b 0 ≤ start.getD b 0 + hp.num_unroll_steps →
      (tes.getD b emptyElement).sample_len < hp.num_unroll_steps + 1) := by
  have h1 : (tes.getD b emptyElement).sample_len =
      ((Finset.range (hp.num_unroll_steps + 1)).filter
        (fun k => start.getD b 0 + k < st.episode_len.getD b 0)).card := by
    rw [makeTarget_row hok hb]
    show sampleLen hp (st.episode_len.getD b 0) (start.getD b 0) = _
    rw [card_filter_range]
    rfl
  refine ⟨h1, fun hend => ?_⟩
  rw [h1]
  have hsub : ((Finset.range (hp.num_unroll_steps + 1)).filter
      (fun k => start.getD b 0 + k < st.episode_len.getD b 0)).card ≤
      hp.num_unroll_steps + 1 := by
    calc _ ≤ (Finset.range (hp.num_unroll_steps + 1)).card := Finset.card_filter_le _ _
    _ = hp.num_unroll_steps + 1 := Finset.card_range _
  rcases lt_or_eq_of_le hsub with h | h
  · exact h
  · exfalso
    have h' : ((Finset.range (hp.num_unroll_steps + 1)).filter
        (fun k => start.getD b 0 + k < st.episode_len.getD b 0)).card =
        (Finset.range (hp.num_unroll_steps + 1)).card := by
      rw [Finset.card_range]
      exact h
    have hall := Finset.card_filter_eq_iff.mp h' hp.num_unroll_steps
      (Finset.mem_range.mpr (by omega))
    omega

/-- Claim C6 (witness): at the `hpA`/`stA` fixture with `start_index = 1`,
exactly one of the single offset is in-episode. -/
theorem C6_witness :
    ((buildTargets hpA stA [1]).getD 0 emptyElement).sample_len = 1 := by
  have h := (C6_sample_len hpA stA [1] (buildTargets hpA stA [1])
    (by rw [makeTarget, if_pos (by decide : makeTargetOk hpA stA [1])])
    0 (by decide)).1
  rw [h]
  decide

/-! ### Claim C4 -/

/-- Claim C4 (counterexample): `stB` and `stB2` agree on every stored field
and on every reward inside the episode (`episode_len = 1`), differing only
in the reward at step 1 — at/beyond the episode end — yet `make_target`
returns `target_value[0] = 5/2` on one and `0` on the other: differences
beyond the episode end inside the td window do change the value target. -/
theorem C4_counterexample :
    stB.episode_len = stB2.episode_len ∧
    stB.root_values = stB2.root_values ∧
    stB.children_visits = stB2.children_visits ∧
    stB.actions = stB2.actions ∧
    stB.player_ids = stB2.player_ids ∧
    stB.dones = stB2.dones ∧
    stB.game_states = stB2.game_states ∧
    (∀ j < stB.episode_len.getD 0 0, getD2 stB.rewards 0 j 0 = getD2 stB2.rewards 0 j 0) ∧
    (makeTarget hpB stB [0]).map (List.map TrainElement.values) = .ok [[(5:ℝ)/2]] ∧
    (makeTarget hpB stB2 [0]).map (List.map TrainElement.values) = .ok [[(0:ℝ)]] ∧
    ((5:ℝ)/2 ≠ 0) := by
  refine ⟨by decide, by decide, by decide, by decide, by decide, by decide, by decide,
    by decide, ?_, ?_, by norm_num⟩
  · rw [makeTarget, if_pos (by decide : makeTargetOk hpB stB [0])]
    simp [buildTargets, buildElement, hpB, stB, getD2, List.range_succ, valueEntry,
      bootstrapValue, discountedRewardSum, maskedRewardsRow, broadcastMul,
      rolledDiscount, discountMult_two_one, discountMult_exp_zero, Except.map]
    norm_num [discountMult_two_one]
  · rw [makeTarget, if_pos (by decide : makeTargetOk hpB stB2 [0])]
    simp [buildTargets, buildElement, hpB, stB2, getD2, List.range_succ, valueEntry,
      bootstrapValue, discountedRewardSum, maskedRewardsRow, broadcastMul,
      rolledDiscount, discountMult_two_one, discountMult_exp_zero, Except.map]

/-- Claim C4 (amended): two stored states that agree on `episode_len` and
`root_values` and whose rewards agree at every buffer position inside the
window `[start+k, start+k+td_steps)` — regardless of any difference outside
the window, including positions inside the episode — give identical
`target_value` outputs at offset `k`, crash for crash and value for value;
the modular roll never aliases a reward from outside the window in. -/
theorem C4_amended_window_only (hp : Hparams) (st st' : GameStats) (start : List Nat)
    (k : Nat)
    (hep : st'.episode_len = st.episode_len)
    (hrv : st'.root_values = st.root_values)
    (hwin : ∀ b < hp.batch_size, ∀ j, start.getD b 0 + k ≤ j →
      j < start.getD b 0 + k + hp.td_steps →
      getD2 st'.rewards b j 0 = getD2 st.rewards b j 0) :
    (makeTarget hp st' start).map (fun l => l.map (fun te => te.values.getD k 0)) =
    (makeTarget hp st start).map (fun l => l.map (fun te => te.values.getD k 0)) := by
  have hiff : makeTargetOk hp st' start ↔ makeTargetOk hp st start := by
    unfold makeTargetOk bootstrapCount
    rw [hep]
  unfold makeTarget
  by_cases h : makeTargetOk hp st start
  · rw [if_pos h, if_pos (hiff.mpr h)]
    simp only [Except.map]
    unfold buildTargets
    rw [List.map_map, List.map_map]
    refine congrArg Except.ok (List.map_congr_left ?_)
    intro b hbm
    rw [List.mem_range] at hbm
    simp only [Function.comp]
    by_cases hk : k ≤ hp.num_unroll_steps
    · show ((List.range (hp.num_unroll_steps + 1)).map
        (fun k' => valueEntry hp st' b (start.getD b 0) k')).getD k 0 =
        ((List.range (hp.num_unroll_steps + 1)).map
        (fun k' => valueEntry hp st b (start.getD b 0) k')).getD k 0
      rw [getD_map_range _ _ _ _ (by omega), getD_map_range _ _ _ _ (by omega)]
      unfold valueEntry bootstrapValue discountedRewardSum
      rw [hep, hrv]
      have hmask : maskedRewardsRow hp st' b (start.getD b 0 + k) =
          maskedRewardsRow hp st b (start.getD b 0 + k) := by
        unfold maskedRewardsRow
        refine List.map_congr_left ?_
        intro j hj
        rw [List.mem_range] at hj
        by_cases h1 : j < start.getD b 0 + k
        · simp only [if_pos h1]
        · by_cases h2 : start.getD b 0 + k + hp.td_steps ≤ j
          · simp only [if_neg h1, if_pos h2]
          · simp only [if_neg h1, if_neg h2]
            exact hwin b hbm j (by omega) (by omega)
      rw [hmask]
    · show ((List.range (hp.num_unroll_steps + 1)).map
        (fun k' => valueEntry hp st' b (start.getD b 0) k')).getD k 0 =
        ((List.range (hp.num_unroll_steps + 1)).map
        (fun k' => valueEntry hp st b (start.getD b 0) k')).getD k 0
      rw [List.getD_eq_default _ _ (by simp only [List.length_map, List.length_range]; omega),
        List.getD_eq_default _ _ (by simp only [List.length_map, List.length_range]; omega)]
  · rw [if_neg h, if_neg (fun hc => h (hiff.mp hc))]

/-- Claim C4 (witness for the amended theorem): `stA` and `stA2` differ in
the reward at step 0 — inside the episode but outside the window starting at
`start_index = 1` — and yield identical `target_value[0]`. -/
theorem C4_amended_witness :
    (makeTarget hpA stA2 [1]).map (fun l => l.map (fun te => te.values.getD 0 0)) =
    (makeTarget hpA stA [1]).map (fun l => l.map (fun te => te.values.getD 0 0)) :=
  C4_amended_window_only hpA stA stA2 [1] 0 rfl rfl (by
    intro b hb j h1 h2
    have hb0 : b = 0 := by
      simp only [hpA] at hb
      omega
    subst hb0
    have h1' : 1 ≤ j := by simpa using h1
    have h2' : j < 2 := by
      simp only [hpA] at h2
      simpa using h2
    have hj : j = 1 := by omega
    subst hj
    decide)


/-! ### List-update helper lemmas for `append` and
`update_last_reward_and_values` -/

/-- Reading back a just-written entry. -/
theorem getD_set_self {α : Type} (l : List α) (i : Nat) (x d : α) (h : i < l.length) :
    (l.set i x).getD i d = x := by
  rw [List.getD_eq_getElem?_getD, List.getElem?_set_self h]
  rfl

/-- Writing one entry leaves the others unchanged. -/
theorem getD_set_ne {α : Type} (l : List α) (i i' : Nat) (x d : α) (h : i ≠ i') :
    (l.set i x).getD i' d = l.getD i' d := by
  rw [List.getD_eq_getElem?_getD, List.getElem?_set_ne h, ← List.getD_eq_getElem?_getD]

theorem getD2_set2_self {α : Type} (m : List (List α)) (i j : Nat) (x d : α)
    (hi : i < m.length) (hj : j < (m.getD i []).length) :
    getD2 (set2 m i j x) i j d = x := by
  unfold getD2 set2
  rw [getD_set_self _ _ _ _ hi, getD_set_self _ _ _ _ hj]

theorem getD2_set2_ne {α : Type} (m : List (List α)) (i j i' j' : Nat) (x d : α)
    (h : i ≠ i' ∨ j ≠ j') :
    getD2 (set2 m i j x) i' j' d = getD2 m i' j' d := by
  unfold getD2 set2
  by_cases hii : i = i'
  · subst hii
    rcases h with h | h
    · omega
    · by_cases hlen : i < m.length
      · rw [getD_set_self _ _ _ _ hlen, getD_set_ne _ _ _ _ _ h]
      · rw [List.set_eq_of_length_le (by omega)]
  · rw [getD_set_ne _ _ _ _ _ hii]

theorem length_set2 {α : Type} (m : List (List α)) (i j : Nat) (x : α) :
    (set2 m i j x).length = m.length := by
  unfold set2
  exact List.length_set _ _ _

theorem rowlen_set2 {α : Type} (m : List (List α)) (i j i' : Nat) (x : α) :
    ((set2 m i j x).getD i' []).length = (m.getD i' []).length := by
  unfold set2
  by_cases hii : i = i'
  · subst hii
    by_cases hlen : i < m.length
    · rw [getD_set_self _ _ _ _ hlen, List.length_set]
    · rw [List.set_eq_of_length_le (by omega)]
  · rw [getD_set_ne _ _ _ _ _ hii]

/-- Cells not named by any pair of a scatter write keep their value. -/
theorem foldl_set2_frame {α : Type} (pairs : List ((Nat × Nat) × α))
    (m : List (List α)) (d : α) (s p : Nat)
    (h : ∀ q ∈ pairs, q.1.1 ≠ s ∨ q.1.2 ≠ p) :
    getD2 (pairs.foldl (fun acc q => set2 acc q.1.1 q.1.2 q.2) m) s p d =
    getD2 m s p d := by
  induction pairs generalizing m with
  | nil => rfl
  | cons q tl ih =>
    rw [List.foldl_cons, ih _ (fun q' hq' => h q' (List.mem_cons_of_mem _ hq')),
      getD2_set2_ne _ _ _ _ _ _ _ (h q (List.mem_cons_self _ _))]

theorem foldl_set2_length {α : Type} (pairs : List ((Nat × Nat) × α))
    (m : List (List α)) :
    (pairs.foldl (fun acc q => set2 acc q.1.1 q.1.2 q.2) m).length = m.length := by
  induction pairs generalizing m with
  | nil => rfl
  | cons q tl ih =>
    rw [List.foldl_cons, ih, length_set2]

theorem foldl_set2_rowlen {α : Type} (pairs : List ((Nat × Nat) × α))
    (m : List (List α)) (i : Nat) :
    ((pairs.foldl (fun acc q => set2 acc q.1.1 q.1.2 q.2) m).getD i []).length =
    ((m.getD i []).length) := by
  induction pairs generalizing m with
  | nil => rfl
  | cons q tl ih =>
    rw [List.foldl_cons, ih, rowlen_set2]

/-- A scatter write over distinct slots stores each supplied value at its
slot's position. -/
theorem foldl_set2_read {α : Type} (a e : List Nat) (v : List α)
    (m : List (List α)) (d : α)
    (hnd : a.Nodup) (hle : e.length = a.length) (hlv : v.length = a.length)
    (hb : ∀ i < a.length, a.getD i 0 < m.length ∧
      e.getD i 0 < (m.getD (a.getD i 0) []).length) :
    ∀ i < a.length,
      getD2 (((a.zip e).zip v).foldl (fun acc q => set2 acc q.1.1 q.1.2 q.2) m)
        (a.getD i 0) (e.getD i 0) d = v.getD i d := by
  induction a generalizing e v m with
  | nil => intro i hi; simp at hi
  | cons s a' ih =>
    cases e with
    | nil => simp at hle
    | cons e0 e' =>
      cases v with
      | nil => simp at hlv
      | cons v0 v' =>
        intro i hi
        rw [List.zip_cons_cons, List.zip_cons_cons, List.foldl_cons]
        match i with
        | 0 =>
          have hframe : ∀ q ∈ (a'.zip e').zip v', q.1.1 ≠ s ∨ q.1.2 ≠ e0 := by
            intro q hq
            left
            have h1 := (List.of_mem_zip hq).1
            have h2 := (List.of_mem_zip h1).1
            intro hc
            rw [hc] at h2
            exact (List.nodup_cons.mp hnd).1 h2
          rw [show (s :: a').getD 0 0 = s from rfl, show (e0 :: e').getD 0 0 = e0 from rfl,
            show (v0 :: v').getD 0 d = v0 from rfl]
          rw [foldl_set2_frame _ _ _ _ _ hframe]
          exact getD2_set2_self _ _ _ _ _ (hb 0 (by simp)).1 (hb 0 (by simp)).2
        | (Nat.succ i') =>
          rw [List.getD_cons_succ, List.getD_cons_succ, List.getD_cons_succ]
          refine ih e' v' (set2 m s e0 v0) (List.nodup_cons.mp hnd).2
            (by simpa using hle) (by simpa using hlv) ?_ i' (by simp at hi; omega)
          intro i'' hi''
          rw [length_set2, rowlen_set2]
          have := hb (i'' + 1) (by simp; omega)
          simpa using this

theorem foldl_set_frame {α : Type} (pairs : List (Nat × α)) (l : List α) (d : α) (s : Nat)
    (h : ∀ q ∈ pairs, q.1 ≠ s) :
    (pairs.foldl (fun acc q => acc.set q.1 q.2) l).getD s d = l.getD s d := by
  induction pairs generalizing l with
  | nil => rfl
  | cons q tl ih =>
    rw [List.foldl_cons, ih _ (fun q' hq' => h q' (List.mem_cons_of_mem _ hq')),
      getD_set_ne _ _ _ _ _ (h q (List.mem_cons_self _ _))]

theorem foldl_set_read {α : Type} (a : List Nat) (v : List α) (l : List α) (d : α)
    (hnd : a.Nodup) (hlv : v.length = a.length)
    (hb : ∀ i < a.length, a.getD i 0 < l.length) :
    ∀ i < a.length,
      ((a.zip v).foldl (fun acc q => acc.set q.1 q.2) l).getD (a.getD i 0) d =
        v.getD i d := by
  induction a generalizing v l with
  | nil => intro i hi; simp at hi
  | cons s a' ih =>
    cases v with
    | nil => simp at hlv
    | cons v0 v' =>
      intro i hi
      rw [List.zip_cons_cons, List.foldl_cons]
      match i with
      | 0 =>
        have hframe : ∀ q ∈ a'.zip v', q.1 ≠ s := by
          intro q hq hc
          have h2 := (List.of_mem_zip hq).1
          rw [hc] at h2
          exact (List.nodup_cons.mp hnd).1 h2
        rw [show (s :: a').getD 0 0 = s from rfl, show (v0 :: v').getD 0 d = v0 from rfl]
        rw [foldl_set_frame _ _ _ _ hframe]
        exact getD_set_self _ _ _ _ (hb 0 (by simp))
      | (Nat.succ i') =>
        rw [List.getD_cons_succ, List.getD_cons_succ]
        refine ih v' (l.set s v0) (List.nodup_cons.mp hnd).2
          (by simpa using hlv) ?_ i' (by simp at hi; omega)
        intro i'' hi''
        rw [List.length_set]
        have := hb (i'' + 1) (by simp; omega)
        simpa using this

/-- The effect of `episode_len[index] += 1` on one slot. -/
theorem foldl_setInc (old : List Nat) (tl : List Nat) (acc : List Nat)
    (hlen : acc.length = old.length) (s : Nat) :
    (tl.foldl (fun l s' => l.set s' (old.getD s' 0 + 1)) acc).getD s 0 =
    if s ∈ tl ∧ s < old.length then old.getD s 0 + 1 else acc.getD s 0 := by
  induction tl generalizing acc with
  | nil =>
    simp
  | cons t tl' ih =>
    rw [List.foldl_cons, ih _ (by rw [List.length_set]; exact hlen)]
    by_cases h1 : s ∈ tl' ∧ s < old.length
    · rw [if_pos h1, if_pos ⟨List.mem_cons_of_mem _ h1.1, h1.2⟩]
    · by_cases h2 : s = t ∧ s < old.length
      · rw [if_neg h1, if_pos ⟨h2.1 ▸ List.mem_cons_self _ _, h2.2⟩]
        rw [h2.1, getD_set_self _ _ _ _ (by omega)]
      · rw [if_neg h1, if_neg (by
          intro hc
          rcases List.mem_cons.mp hc.1 with h | h
          · exact h2 ⟨h, hc.2⟩
          · exact h1 ⟨h, hc.2⟩)]
        by_cases h3 : t = s
        · subst h3
          have : ¬ t < old.length := by
            intro hlt
            exact h2 ⟨rfl, hlt⟩
          rw [List.set_eq_of_length_le (by omega)]
        · rw [getD_set_ne _ _ _ _ _ h3]

theorem incEpisodeLens_getD (old active : List Nat) (s : Nat) :
    (incEpisodeLens old active).getD s 0 =
    if s ∈ active ∧ s < old.length then old.getD s 0 + 1 else old.getD s 0 :=
  foldl_setInc old active old rfl s


theorem getD3_set3_self {α : Type} (m : List (List (List α))) (i j k : Nat) (x d : α)
    (hi : i < m.length) (hj : j < (m.getD i []).length)
    (hk : k < ((m.getD i []).getD j []).length) :
    getD3 (set3 m i j k x) i j k d = x := by
  unfold getD3 set3
  rw [getD_set_self _ _ _ _ hi, getD_set_self _ _ _ _ hj, getD_set_self _ _ _ _ hk]

theorem getD3_set3_ne {α : Type} (m : List (List (List α))) (i j k i' j' k' : Nat)
    (x d : α) (h : i ≠ i' ∨ j ≠ j' ∨ k ≠ k') :
    getD3 (set3 m i j k x) i' j' k' d = getD3 m i' j' k' d := by
  unfold getD3 set3
  by_cases hii : i = i'
  · subst hii
    by_cases hlen : i < m.length
    · rw [getD_set_self _ _ _ _ hlen]
      by_cases hjj : j = j'
      · subst hjj
        by_cases hjlen : j < (m.getD i []).length
        · rw [getD_set_self _ _ _ _ hjlen]
          rcases h with h | h | h
          · omega
          · omega
          · rw [getD_set_ne _ _ _ _ _ h]
        · rw [List.set_eq_of_length_le (by omega)]
      · rw [getD_set_ne _ _ _ _ _ hjj]
    · rw [List.set_eq_of_length_le (by omega)]
  · rw [getD_set_ne _ _ _ _ _ hii]

theorem length_set3 {α : Type} (m : List (List (List α))) (i j k : Nat) (x : α) :
    (set3 m i j k x).length = m.length := by
  unfold set3
  exact List.length_set _ _ _

theorem planelen_set3 {α : Type} (m : List (List (List α))) (i j k i' : Nat) (x : α) :
    ((set3 m i j k x).getD i' []).length = ((m.getD i' []).length) := by
  unfold set3
  by_cases hii : i = i'
  · subst hii
    by_cases hlen : i < m.length
    · rw [getD_set_self _ _ _ _ hlen, List.length_set]
    · rw [List.set_eq_of_length_le (by omega)]
  · rw [getD_set_ne _ _ _ _ _ hii]

theorem rowlen_set3 {α : Type} (m : List (List (List α))) (i j k i' j' : Nat) (x : α) :
    (((set3 m i j k x).getD i' []).getD j' []).length =
    (((m.getD i' []).getD j' []).length) := by
  unfold set3
  by_cases hii : i = i'
  · subst hii
    by_cases hlen : i < m.length
    · rw [getD_set_self _ _ _ _ hlen]
      by_cases hjj : j = j'
      · subst hjj
        by_cases hjlen : j < (m.getD i []).length
        · rw [getD_set_self _ _ _ _ hjlen, List.length_set]
        · rw [List.set_eq_of_length_le (by omega)]
      · rw [getD_set_ne _ _ _ _ _ hjj]
    · rw [List.set_eq_of_length_le (by omega)]
  · rw [getD_set_ne _ _ _ _ _ hii]

theorem visits_inner_length (la : List Nat) (m : List (List (List ℚ)))
    (slot epl : Nat) (row : List ℚ) :
    (la.foldl (fun m' a => set3 m' slot a epl (row.getD a 0)) m).length = m.length := by
  induction la generalizing m with
  | nil => rfl
  | cons a la' ih => rw [List.foldl_cons, ih, length_set3]

theorem visits_inner_planelen (la : List Nat) (m : List (List (List ℚ)))
    (slot epl : Nat) (row : List ℚ) (i' : Nat) :
    ((la.foldl (fun m' a => set3 m' slot a epl (row.getD a 0)) m).getD i' []).length =
    (m.getD i' []).length := by
  induction la generalizing m with
  | nil => rfl
  | cons a la' ih => rw [List.foldl_cons, ih, planelen_set3]

theorem visits_inner_rowlen (la : List Nat) (m : List (List (List ℚ)))
    (slot epl : Nat) (row : List ℚ) (i' j' : Nat) :
    (((la.foldl (fun m' a => set3 m' slot a epl (row.getD a 0)) m).getD i' []).getD j' []).length =
    ((m.getD i' []).getD j' []).length := by
  induction la generalizing m with
  | nil => rfl
  | cons a la' ih => rw [List.foldl_cons, ih, rowlen_set3]

theorem visits_inner_frame (la : List Nat) (m : List (List (List ℚ)))
    (slot epl : Nat) (row : List ℚ) (i j k : Nat) (d : ℚ)
    (h : i ≠ slot ∨ k ≠ epl) :
    getD3 (la.foldl (fun m' a => set3 m' slot a epl (row.getD a 0)) m) i j k d =
    getD3 m i j k d := by
  induction la generalizing m with
  | nil => rfl
  | cons a la' ih =>
    rw [List.foldl_cons, ih, getD3_set3_ne]
    rcases h with h | h
    · exact Or.inl (fun hc => h hc.symm)
    · exact Or.inr (Or.inr (fun hc => h hc.symm))

theorem visits_inner_frame_j (la : List Nat) (m : List (List (List ℚ)))
    (slot epl : Nat) (row : List ℚ) (i j k : Nat) (d : ℚ)
    (hj : j ∉ la) :
    getD3 (la.foldl (fun m' a => set3 m' slot a epl (row.getD a 0)) m) i j k d =
    getD3 m i j k d := by
  induction la generalizing m with
  | nil => rfl
  | cons a la' ih =>
    rw [List.foldl_cons, ih _ (fun hc => hj (List.mem_cons_of_mem _ hc)), getD3_set3_ne]
    exact Or.inr (Or.inl (fun hc => hj (hc ▸ List.mem_cons_self _ _)))

theorem visits_inner_read (la : List Nat) (m : List (List (List ℚ)))
    (slot epl : Nat) (row : List ℚ) (d : ℚ)
    (hnd : la.Nodup)
    (hslot : slot < m.length)
    (hb : ∀ a ∈ la, a < (m.getD slot []).length ∧
      epl < ((m.getD slot []).getD a []).length) :
    ∀ a ∈ la,
      getD3 (la.foldl (fun m' x => set3 m' slot x epl (row.getD x 0)) m) slot a epl d =
      row.getD a 0 := by
  induction la generalizing m with
  | nil => intro a ha; simp at ha
  | cons a0 la' ih =>
    intro a ha
    rw [List.foldl_cons]
    rcases List.mem_cons.mp ha with rfl | hmem
    · rw [visits_inner_frame_j _ _ _ _ _ _ _ _ _ (List.nodup_cons.mp hnd).1]
      exact getD3_set3_self _ _ _ _ _ _ hslot (hb a (List.mem_cons_self _ _)).1
        (hb a (List.mem_cons_self _ _)).2
    · refine ih _ (List.nodup_cons.mp hnd).2 (by rw [length_set3]; exact hslot) ?_ a hmem
      intro a' ha'
      rw [planelen_set3, rowlen_set3]
      exact hb a' (List.mem_cons_of_mem _ ha')

theorem visits_outer_frame (pairs : List ((Nat × Nat) × List ℚ))
    (m : List (List (List ℚ))) (na : Nat) (i j k : Nat) (d : ℚ)
    (h : ∀ q ∈ pairs, q.1.1 ≠ i ∨ q.1.2 ≠ k) :
    getD3 (pairs.foldl (fun acc q => (List.range na).foldl
      (fun m' x => set3 m' q.1.1 x q.1.2 (q.2.getD x 0)) acc) m) i j k d =
    getD3 m i j k d := by
  induction pairs generalizing m with
  | nil => rfl
  | cons q tl ih =>
    rw [List.foldl_cons, ih _ (fun q' hq' => h q' (List.mem_cons_of_mem _ hq')),
      visits_inner_frame _ _ _ _ _ _ _ _ _
        ((h q (List.mem_cons_self _ _)).imp Ne.symm Ne.symm)]

theorem visits_outer_read (a e : List Nat) (v : List (List ℚ))
    (m : List (List (List ℚ))) (d : ℚ) (na : Nat)
    (hnd : a.Nodup) (hle : e.length = a.length) (hlv : v.length = a.length)
    (hb : ∀ i < a.length, a.getD i 0 < m.length ∧
      (∀ j < na, j < (m.getD (a.getD i 0) []).length ∧
        e.getD i 0 < ((m.getD (a.getD i 0) []).getD j []).length)) :
    ∀ i < a.length, ∀ j < na,
      getD3 (((a.zip e).zip v).foldl (fun acc q => (List.range na).foldl
        (fun m' x => set3 m' q.1.1 x q.1.2 (q.2.getD x 0)) acc) m)
        (a.getD i 0) j (e.getD i 0) d = (v.getD i []).getD j 0 := by
  induction a generalizing e v m with
  | nil => intro i hi; simp at hi
  | cons s a' ih =>
    cases e with
    | nil => simp at hle
    | cons e0 e' =>
      cases v with
      | nil => simp at hlv
      | cons v0 v' =>
        intro i hi j hj
        rw [List.zip_cons_cons, List.zip_cons_cons, List.foldl_cons]
        match i with
        | 0 =>
          have hframe : ∀ q ∈ (a'.zip e').zip v', q.1.1 ≠ s ∨ q.1.2 ≠ e0 := by
            intro q hq
            left
            have h1 := (List.of_mem_zip hq).1
            have h2 := (List.of_mem_zip h1).1
            intro hc
            rw [hc] at h2
            exact (List.nodup_cons.mp hnd).1 h2
          rw [show (s :: a').getD 0 0 = s from rfl, show (e0 :: e').getD 0 0 = e0 from rfl,
            show (v0 :: v').getD 0 [] = v0 from rfl]
          rw [visits_outer_frame _ _ _ _ _ _ _ hframe]
          exact visits_inner_read (List.range na) m s e0 v0 d (List.nodup_range na)
            (hb 0 (by simp)).1
            (fun x hx => by
              have := (hb 0 (by simp)).2 x (List.mem_range.mp hx)
              exact this)
            j (List.mem_range.mpr hj)
        | (Nat.succ i') =>
          rw [List.getD_cons_succ, List.getD_cons_succ, List.getD_cons_succ]
          refine ih e' v' _ (List.nodup_cons.mp hnd).2
            (by simpa using hle) (by simpa using hlv) ?_ i' (by simp at hi; omega) j hj
          intro i'' hi''
          rw [visits_inner_length]
          refine ⟨(hb (i'' + 1) (by simp; omega)).1, ?_⟩
          intro j' hj'
          rw [visits_inner_planelen, visits_inner_rowlen]
          exact (hb (i'' + 1) (by simp; omega)).2 j' hj'


/-! ### Inversion lemmas for the write helpers and `applyField` -/

theorem writeStepField_ok {α : Type} {hp : Hparams} {key : String}
    {active epLens : List Nat} {dst : List (List α)} {v : List α}
    {r : List (List α)}
    (hok : writeStepField hp key active epLens dst v = .ok r) :
    v.length = active.length ∧
    (∀ s ∈ active, s < hp.batch_size) ∧
    (∀ e ∈ epLens, e < hp.max_episode_len) ∧
    r = ((active.zip epLens).zip v).foldl
      (fun m se => set2 m se.1.1 se.1.2 se.2) dst := by
  unfold writeStepField at hok
  split_ifs at hok with h1 h2 <;> cases hok
  refine ⟨by omega, ?_, ?_, rfl⟩
  · intro s hs
    have := h2.1
    rw [List.all_eq_true] at this
    simpa using this s hs
  · intro e he
    have := h2.2
    rw [List.all_eq_true] at this
    simpa using this e he

theorem writeDonesField_ok {hp : Hparams} {active : List Nat} {dst : List Bool}
    {v : List Bool} {r : List Bool}
    (hok : writeDonesField hp active dst v = .ok r) :
    v.length = active.length ∧
    (∀ s ∈ active, s < hp.batch_size) ∧
    r = (active.zip v).foldl (fun d sv => d.set sv.1 sv.2) dst := by
  unfold writeDonesField at hok
  split_ifs at hok with h1 h2 <;> cases hok
  refine ⟨by omega, ?_, rfl⟩
  intro s hs
  rw [List.all_eq_true] at h2
  simpa using h2 s hs

theorem writeVisitsField_ok {hp : Hparams} {active epLens : List Nat}
    {dst : List (List (List ℚ))} {v : List (List ℚ)} {r : List (List (List ℚ))}
    (hok : writeVisitsField hp active epLens dst v = .ok r) :
    v.length = active.length ∧
    (∀ row ∈ v, row.length = hp.num_actions) ∧
    (∀ s ∈ active, s < hp.batch_size) ∧
    (∀ e ∈ epLens, e < hp.max_episode_len) ∧
    r = visitsWritten hp active epLens dst v := by
  unfold writeVisitsField at hok
  split_ifs at hok with h1 h2 h3 <;> cases hok
  push_neg at h1
  refine ⟨h1.1, ?_, ?_, ?_, rfl⟩
  · intro row hrow
    have := h1.2
    rw [List.all_eq_true] at this
    simpa using this row hrow
  · intro s hs
    have := h2.1
    rw [List.all_eq_true] at this
    simpa using this s hs
  · intro e he
    have := h2.2
    rw [List.all_eq_true] at this
    simpa using this e he

theorem applyField_effects {hp : Hparams} {active epLens : List Nat}
    {st : GameStats} {kv : String × FieldValue} {st1 : GameStats}
    (hok : applyField hp active epLens st kv = .ok st1) :
    st1.episode_len = st.episode_len ∧
    (kv.1 ≠ "rewards" → st1.rewards = st.rewards) ∧
    (kv.1 ≠ "root_values" → st1.root_values = st.root_values) ∧
    (kv.1 ≠ "children_visits" → st1.children_visits = st.children_visits) ∧
    (kv.1 ≠ "actions" → st1.actions = st.actions) ∧
    (kv.1 ≠ "player_ids" → st1.player_ids = st.player_ids) ∧
    (kv.1 ≠ "dones" → st1.dones = st.dones) ∧
    (kv.1 ≠ "game_states" → st1.game_states = st.game_states) := by
  unfold applyField at hok
  split_ifs at hok with h1 h2 h3 h4 h5 h6 h7
  · cases hv : kv.2 <;> rw [hv] at hok <;> (try simp only [] at hok) <;> try cases hok
    rename_i v
    cases hw : writeStepField hp "rewards" active epLens st.rewards v <;>
      rw [hw] at hok <;> simp only [Except.map] at hok <;> cases hok
    simp [h1]
  · cases hv : kv.2 <;> rw [hv] at hok <;> (try simp only [] at hok) <;> try cases hok
    rename_i v
    cases hw : writeStepField hp "root_values" active epLens st.root_values v <;>
      rw [hw] at hok <;> simp only [Except.map] at hok <;> cases hok
    simp [h2]
  · cases hv : kv.2 <;> rw [hv] at hok <;> (try simp only [] at hok) <;> try cases hok
    rename_i v
    cases hw : writeVisitsField hp active epLens st.children_visits v <;>
      rw [hw] at hok <;> simp only [Except.map] at hok <;> cases hok
    simp [h3]
  · cases hv : kv.2 <;> rw [hv] at hok <;> (try simp only [] at hok) <;> try cases hok
    rename_i v
    cases hw : writeStepField hp "actions" active epLens st.actions v <;>
      rw [hw] at hok <;> simp only [Except.map] at hok <;> cases hok
    simp [h4]
  · cases hv : kv.2 <;> rw [hv] at hok <;> (try simp only [] at hok) <;> try cases hok
    rename_i v
    cases hw : writeStepField hp "player_ids" active epLens st.player_ids v <;>
      rw [hw] at hok <;> simp only [Except.map] at hok <;> cases hok
    simp [h5]
  · cases hv : kv.2 <;> rw [hv] at hok <;> (try simp only [] at hok) <;> try cases hok
    rename_i v
    cases hw : writeDonesField hp active st.dones v <;>
      rw [hw] at hok <;> simp only [Except.map] at hok <;> cases hok
    simp [h6]
  · cases hv : kv.2 <;> rw [hv] at hok <;> (try simp only [] at hok) <;> try cases hok
    simp [h7]

theorem applyField_rewards {hp : Hparams} {active epLens : List Nat}
    {st st1 : GameStats} {v : List ℚ}
    (hok : applyField hp active epLens st ("rewards", .fvFloat v) = .ok st1) :
    writeStepField hp "rewards" active epLens st.rewards v = .ok st1.rewards := by
  unfold applyField at hok
  rw [if_pos rfl] at hok
  simp only [] at hok
  cases hw : writeStepField hp "rewards" active epLens st.rewards v <;>
      rw [hw] at hok <;> simp only [Except.map] at hok <;> cases hok
  rfl

theorem applyField_root_values {hp : Hparams} {active epLens : List Nat}
    {st st1 : GameStats} {v : List ℚ}
    (hok : applyField hp active epLens st ("root_values", .fvFloat v) = .ok st1) :
    writeStepField hp "root_values" active epLens st.root_values v = .ok st1.root_values := by
  unfold applyField at hok
  rw [if_neg (by simp), if_pos rfl] at hok
  simp only [] at hok
  cases hw : writeStepField hp "root_values" active epLens st.root_values v <;>
      rw [hw] at hok <;> simp only [Except.map] at hok <;> cases hok
  rfl

theorem applyField_visits {hp : Hparams} {active epLens : List Nat}
    {st st1 : GameStats} {v : List (List ℚ)}
    (hok : applyField hp active epLens st ("children_visits", .fvVisits v) = .ok st1) :
    writeVisitsField hp active epLens st.children_visits v = .ok st1.children_visits := by
  unfold applyField at hok
  rw [if_neg (by simp), if_neg (by simp), if_pos rfl] at hok
  simp only [] at hok
  cases hw : writeVisitsField hp active epLens st.children_visits v <;>
      rw [hw] at hok <;> simp only [Except.map] at hok <;> cases hok
  rfl

theorem applyField_actions {hp : Hparams} {active epLens : List Nat}
    {st st1 : GameStats} {v : List Int}
    (hok : applyField hp active epLens st ("actions", .fvInt v) = .ok st1) :
    writeStepField hp "actions" active epLens st.actions v = .ok st1.actions := by
  unfold applyField at hok
  rw [if_neg (by simp), if_neg (by simp), if_neg (by simp), if_pos rfl] at hok
  simp only [] at hok
  cases hw : writeStepField hp "actions" active epLens st.actions v <;>
      rw [hw] at hok <;> simp only [Except.map] at hok <;> cases hok
  rfl

theorem applyField_player_ids {hp : Hparams} {active epLens : List Nat}
    {st st1 : GameStats} {v : List Int}
    (hok : applyField hp active epLens st ("player_ids", .fvInt v) = .ok st1) :
    writeStepField hp "player_ids" active epLens st.player_ids v = .ok st1.player_ids := by
  unfold applyField at hok
  rw [if_neg (by simp), if_neg (by simp), if_neg (by simp), if_neg (by simp),
    if_pos rfl] at hok
  simp only [] at hok
  cases hw : writeStepField hp "player_ids" active epLens st.player_ids v <;>
      rw [hw] at hok <;> simp only [Except.map] at hok <;> cases hok
  rfl

theorem applyField_dones {hp : Hparams} {active epLens : List Nat}
    {st st1 : GameStats} {v : List Bool}
    (hok : applyField hp active epLens st ("dones", .fvBool v) = .ok st1) :
    writeDonesField hp active st.dones v = .ok st1.dones := by
  unfold applyField at hok
  rw [if_neg (by simp), if_neg (by simp), if_neg (by simp), if_neg (by simp),
    if_neg (by simp), if_pos rfl] at hok
  simp only [] at hok
  cases hw : writeDonesField hp active st.dones v <;>
      rw [hw] at hok <;> simp only [Except.map] at hok <;> cases hok
  rfl

theorem applyField_game_states {hp : Hparams} {active epLens : List Nat}
    {st st1 : GameStats} {v : List Int}
    (hok : applyField hp active epLens st ("game_states", .fvState v) = .ok st1) :
    st1.game_states = st.game_states ++ [v] := by
  unfold applyField at hok
  rw [if_neg (by simp), if_neg (by simp), if_neg (by simp), if_neg (by simp),
    if_neg (by simp), if_neg (by simp), if_pos rfl] at hok
  simp only [] at hok
  cases hok
  rfl


theorem foldFields_effects {hp : Hparams} {active epLens : List Nat}
    {st : GameStats} {dict : List (String × FieldValue)} {st1 : GameStats}
    (hok : dict.foldlM (applyField hp active epLens) st = .ok st1) :
    st1.episode_len = st.episode_len ∧
    ((∀ kv ∈ dict, kv.1 ≠ "rewards") → st1.rewards = st.rewards) ∧
    ((∀ kv ∈ dict, kv.1 ≠ "root_values") → st1.root_values = st.root_values) ∧
    ((∀ kv ∈ dict, kv.1 ≠ "children_visits") → st1.children_visits = st.children_visits) ∧
    ((∀ kv ∈ dict, kv.1 ≠ "actions") → st1.actions = st.actions) ∧
    ((∀ kv ∈ dict, kv.1 ≠ "player_ids") → st1.player_ids = st.player_ids) ∧
    ((∀ kv ∈ dict, kv.1 ≠ "dones") → st1.dones = st.dones) ∧
    ((∀ kv ∈ dict, kv.1 ≠ "game_states") → st1.game_states = st.game_states) := by
  induction dict generalizing st with
  | nil =>
    cases hok
    exact ⟨rfl, fun _ => rfl, fun _ => rfl, fun _ => rfl, fun _ => rfl, fun _ => rfl,
      fun _ => rfl, fun _ => rfl⟩
  | cons kv tl ih =>
    rw [List.foldlM_cons] at hok
    cases hA : applyField hp active epLens st kv with
    | error e => rw [hA] at hok; cases hok
    | ok stA =>
      rw [hA] at hok
      have hstep := applyField_effects hA
      have htl := ih hok
      refine ⟨htl.1.trans hstep.1, ?_, ?_, ?_, ?_, ?_, ?_, ?_⟩
      · intro h
        exact (htl.2.1 (fun kv' hkv' => h kv' (List.mem_cons_of_mem _ hkv'))).trans
          (hstep.2.1 (h kv (List.mem_cons_self _ _)))
      · intro h
        exact (htl.2.2.1 (fun kv' hkv' => h kv' (List.mem_cons_of_mem _ hkv'))).trans
          (hstep.2.2.1 (h kv (List.mem_cons_self _ _)))
      · intro h
        exact (htl.2.2.2.1 (fun kv' hkv' => h kv' (List.mem_cons_of_mem _ hkv'))).trans
          (hstep.2.2.2.1 (h kv (List.mem_cons_self _ _)))
      · intro h
        exact (htl.2.2.2.2.1 (fun kv' hkv' => h kv' (List.mem_cons_of_mem _ hkv'))).trans
          (hstep.2.2.2.2.1 (h kv (List.mem_cons_self _ _)))
      · intro h
        exact (htl.2.2.2.2.2.1 (fun kv' hkv' => h kv' (List.mem_cons_of_mem _ hkv'))).trans
          (hstep.2.2.2.2.2.1 (h kv (List.mem_cons_self _ _)))
      · intro h
        exact (htl.2.2.2.2.2.2.1 (fun kv' hkv' => h kv' (List.mem_cons_of_mem _ hkv'))).trans
          (hstep.2.2.2.2.2.2.1 (h kv (List.mem_cons_self _ _)))
      · intro h
        exact (htl.2.2.2.2.2.2.2 (fun kv' hkv' => h kv' (List.mem_cons_of_mem _ hkv'))).trans
          (hstep.2.2.2.2.2.2.2 (h kv (List.mem_cons_self _ _)))

theorem foldFields_mem {hp : Hparams} {active epLens : List Nat}
    {st : GameStats} {dict : List (String × FieldValue)} {st1 : GameStats}
    (kv : String × FieldValue)
    (hok : dict.foldlM (applyField hp active epLens) st = .ok st1)
    (hmem : kv ∈ dict)
    (hnd : (dict.map Prod.fst).Nodup) :
    ∃ stPre stMid, applyField hp active epLens stPre kv = .ok stMid ∧
      stPre.episode_len = st.episode_len ∧
      (kv.1 = "rewards" → stPre.rewards = st.rewards ∧ st1.rewards = stMid.rewards) ∧
      (kv.1 = "root_values" → stPre.root_values = st.root_values ∧
        st1.root_values = stMid.root_values) ∧
      (kv.1 = "children_visits" → stPre.children_visits = st.children_visits ∧
        st1.children_visits = stMid.children_visits) ∧
      (kv.1 = "actions" → stPre.actions = st.actions ∧ st1.actions = stMid.actions) ∧
      (kv.1 = "player_ids" → stPre.player_ids = st.player_ids ∧
        st1.player_ids = stMid.player_ids) ∧
      (kv.1 = "dones" → stPre.dones = st.dones ∧ st1.dones = stMid.dones) ∧
      (kv.1 = "game_states" → stPre.game_states = st.game_states ∧
        st1.game_states = stMid.game_states) := by
  obtain ⟨pre, post, rfl⟩ := List.append_of_mem hmem
  have hpreN : ∀ kv' ∈ pre, kv'.1 ≠ kv.1 := by
    intro kv' hkv' hc
    rw [List.map_append, List.map_cons] at hnd
    have hdisj := (List.nodup_append.mp hnd).2.2
    exact hdisj (List.mem_map_of_mem _ hkv') (hc ▸ List.mem_cons_self _ _)
  have hpostN : ∀ kv' ∈ post, kv'.1 ≠ kv.1 := by
    intro kv' hkv' hc
    rw [List.map_append, List.map_cons] at hnd
    have hmid := (List.nodup_append.mp hnd).2.1
    exact (List.nodup_cons.mp hmid).1 (hc ▸ List.mem_map_of_mem _ hkv')
  rw [List.foldlM_append] at hok
  cases hpre : pre.foldlM (applyField hp active epLens) st with
  | error e => rw [hpre] at hok; cases hok
  | ok stPre =>
    rw [hpre] at hok
    simp only [bind, Except.bind] at hok
    rw [List.foldlM_cons] at hok
    cases hmid : applyField hp active epLens stPre kv with
    | error e => rw [hmid] at hok; cases hok
    | ok stMid =>
      rw [hmid] at hok
      simp only [bind, Except.bind] at hok
      have hpreE := foldFields_effects hpre
      have hpostE := foldFields_effects hok
      refine ⟨stPre, stMid, hmid, hpreE.1, ?_, ?_, ?_, ?_, ?_, ?_, ?_⟩
      · intro hkey
        exact ⟨hpreE.2.1 (fun kv' h => hkey ▸ hpreN kv' h),
          hpostE.2.1 (fun kv' h => hkey ▸ hpostN kv' h)⟩
      · intro hkey
        exact ⟨hpreE.2.2.1 (fun kv' h => hkey ▸ hpreN kv' h),
          hpostE.2.2.1 (fun kv' h => hkey ▸ hpostN kv' h)⟩
      · intro hkey
        exact ⟨hpreE.2.2.2.1 (fun kv' h => hkey ▸ hpreN kv' h),
          hpostE.2.2.2.1 (fun kv' h => hkey ▸ hpostN kv' h)⟩
      · intro hkey
        exact ⟨hpreE.2.2.2.2.1 (fun kv' h => hkey ▸ hpreN kv' h),
          hpostE.2.2.2.2.1 (fun kv' h => hkey ▸ hpostN kv' h)⟩
      · intro hkey
        exact ⟨hpreE.2.2.2.2.2.1 (fun kv' h => hkey ▸ hpreN kv' h),
          hpostE.2.2.2.2.2.1 (fun kv' h => hkey ▸ hpostN kv' h)⟩
      · intro hkey
        exact ⟨hpreE.2.2.2.2.2.2.1 (fun kv' h => hkey ▸ hpreN kv' h),
          hpostE.2.2.2.2.2.2.1 (fun kv' h => hkey ▸ hpostN kv' h)⟩
      · intro hkey
        exact ⟨hpreE.2.2.2.2.2.2.2 (fun kv' h => hkey ▸ hpreN kv' h),
          hpostE.2.2.2.2.2.2.2 (fun kv' h => hkey ▸ hpostN kv' h)⟩

theorem getD_mem {α : Type} (l : List α) (i : Nat) (d : α) (h : i < l.length) :
    l.getD i d ∈ l := by
  rw [List.getD_eq_getElem _ _ h]
  exact List.getElem_mem h

theorem rowlen_wf {α : Type} (rows : List (List α)) (n m s : Nat)
    (hlen : rows.length = n) (hrows : ∀ r ∈ rows, r.length = m) (hs : s < n) :
    (rows.getD s []).length = m :=
  hrows _ (getD_mem _ _ _ (by omega))

theorem getD_map_getD (l : List Nat) (f : Nat → Nat) (i : Nat) (h : i < l.length) :
    (l.map f).getD i 0 = f (l.getD i 0) := by
  rw [List.getD_eq_getElem _ _ (by simpa using h), List.getD_eq_getElem _ _ h]
  simp


/-! ### Claim C3 -/

/-- Claim C3 (counterexample): the claim says every recognized field —
including the done flag — is written at position `episode_len[slot]` of a
per-step buffer.  But two appends to slot 0 that differ only in the first
call's done value produce bit-identical final states: the first done value
is retained nowhere, because `dones` is a per-slot flag overwritten by each
append (line 130), not a per-step record. -/
theorem C3_counterexample :
    (do
      let s1 ← append hpA stA [0] [("dones", FieldValue.fvBool [true])]
      append hpA s1 [0] [("dones", FieldValue.fvBool [false])] :
        Except AppendError GameStats) =
    (do
      let s1 ← append hpA stA [0] [("dones", FieldValue.fvBool [false])]
      append hpA s1 [0] [("dones", FieldValue.fvBool [false])] :
        Except AppendError GameStats) ∧
    (append hpA stA [0] [("dones", FieldValue.fvBool [true])] ≠
      append hpA stA [0] [("dones", FieldValue.fvBool [false])]) := by
  constructor
  · decide
  · decide

/-- Claim C3 (amended): a successful `append` of a recognized-field
dictionary over distinct active slots on a well-formed state writes each
*per-step* field (reward, root value, action, player id, visit distribution)
at position `episode_len[slot]` of that slot's buffer; the done flag is
overwritten per slot (no step index), and the observation is appended whole
to the `game_states` list; afterwards `episode_len` is incremented by
exactly 1 for each active slot and unchanged for every other slot. -/
theorem C3_amended_append_effects (hp : Hparams) (st : GameStats)
    (active : List Nat) (dict : List (String × FieldValue)) (st' : GameStats)
    (hok : append hp st active dict = .ok st')
    (hndA : active.Nodup) (hndK : (dict.map Prod.fst).Nodup)
    (hwf : WF hp st) :
    (∀ s ∈ active, st'.episode_len.getD s 0 = st.episode_len.getD s 0 + 1) ∧
    (∀ s, s ∉ active → st'.episode_len.getD s 0 = st.episode_len.getD s 0) ∧
    (∀ v, ("rewards", FieldValue.fvFloat v) ∈ dict → ∀ i < active.length,
      getD2 st'.rewards (active.getD i 0) (st.episode_len.getD (active.getD i 0) 0) 0 =
        v.getD i 0) ∧
    (∀ v, ("root_values", FieldValue.fvFloat v) ∈ dict → ∀ i < active.length,
      getD2 st'.root_values (active.getD i 0) (st.episode_len.getD (active.getD i 0) 0) 0 =
        v.getD i 0) ∧
    (∀ v, ("actions", FieldValue.fvInt v) ∈ dict → ∀ i < active.length,
      getD2 st'.actions (active.getD i 0) (st.episode_len.getD (active.getD i 0) 0) 0 =
        v.getD i 0) ∧
    (∀ v, ("player_ids", FieldValue.fvInt v) ∈ dict → ∀ i < active.length,
      getD2 st'.player_ids (active.getD i 0) (st.episode_len.getD (active.getD i 0) 0) 0 =
        v.getD i 0) ∧
    (∀ v, ("children_visits", FieldValue.fvVisits v) ∈ dict → ∀ i < active.length,
      ∀ a < hp.num_actions,
      getD3 st'.children_visits (active.getD i 0) a
        (st.episode_len.getD (active.getD i 0) 0) 0 = (v.getD i []).getD a 0) ∧
    (∀ v, ("dones", FieldValue.fvBool v) ∈ dict → ∀ i < active.length,
      st'.dones.getD (active.getD i 0) false = v.getD i false) ∧
    (∀ v, ("game_states", FieldValue.fvState v) ∈ dict →
      st'.game_states = st.game_states ++ [v]) := by
  unfold append at hok
  by_cases hact : (active.all (fun s => decide (s < hp.batch_size))) = true
  case neg =>
    rw [if_pos hact] at hok
    cases hok
  case pos =>
    rw [if_neg (not_not_intro hact)] at hok
    cases hfold : dict.foldlM
        (fun acc kv => applyField hp active (active.map (st.episode_len.getD · 0)) acc kv)
        st with
    | error e => rw [hfold] at hok; cases hok
    | ok st1 =>
      rw [hfold] at hok
      simp only [] at hok
      cases hok
      have hep1 : st1.episode_len = st.episode_len := (foldFields_effects hfold).1
      have hactB : ∀ s ∈ active, s < hp.batch_size := by
        rw [List.all_eq_true] at hact
        intro s hs
        simpa using hact s hs
      have hepLen : ∀ i < active.length,
          (active.map (st.episode_len.getD · 0)).getD i 0 =
          st.episode_len.getD (active.getD i 0) 0 := by
        intro i hi
        exact getD_map_getD _ _ _ hi
      refine ⟨?_, ?_, ?_, ?_, ?_, ?_, ?_, ?_, ?_⟩
      · intro s hs
        show (incEpisodeLens st1.episode_len active).getD s 0 = _
        rw [hep1, incEpisodeLens_getD,
          if_pos ⟨hs, by rw [hwf.1]; exact hactB s hs⟩]
      · intro s hs
        show (incEpisodeLens st1.episode_len active).getD s 0 = _
        rw [hep1, incEpisodeLens_getD, if_neg (fun hc => hs hc.1)]
      · intro v hmem i hi
        obtain ⟨stPre, stMid, hmid, -, hR, -, -, -, -, -, -⟩ :=
          foldFields_mem _ hfold hmem hndK
        obtain ⟨hpre, hpost⟩ := hR rfl
        have hw := applyField_rewards hmid
        rw [hpre] at hw
        obtain ⟨hlv, -, -, hwr⟩ := writeStepField_ok hw
        show getD2 st1.rewards _ _ _ = _
        rw [hpost, hwr, ← hepLen i hi]
        refine foldl_set2_read active _ v st.rewards 0 hndA (by simp) hlv ?_ i hi
        intro i' hi'
        constructor
        · rw [hwf.2.1]
          exact hactB _ (getD_mem _ _ _ hi')
        · rw [rowlen_wf st.rewards hp.batch_size hp.max_episode_len _ hwf.2.1 hwf.2.2.1
            (hactB _ (getD_mem _ _ _ hi'))]
          rw [getD_map_getD _ _ _ hi']
          obtain ⟨-, -, heM, -⟩ := writeStepField_ok hw
          have := heM _ (getD_mem (active.map (st.episode_len.getD · 0)) i' 0
            (by simpa using hi'))
          rwa [getD_map_getD _ _ _ hi'] at this
      · intro v hmem i hi
        obtain ⟨stPre, stMid, hmid, -, -, hR, -, -, -, -, -⟩ :=
          foldFields_mem _ hfold hmem hndK
        obtain ⟨hpre, hpost⟩ := hR rfl
        have hw := applyField_root_values hmid
        rw [hpre] at hw
        obtain ⟨hlv, -, -, hwr⟩ := writeStepField_ok hw
        show getD2 st1.root_values _ _ _ = _
        rw [hpost, hwr, ← hepLen i hi]
        refine foldl_set2_read active _ v st.root_values 0 hndA (by simp) hlv ?_ i hi
        intro i' hi'
        constructor
        · rw [hwf.2.2.2.1]
          exact hactB _ (getD_mem _ _ _ hi')
        · rw [rowlen_wf st.root_values hp.batch_size hp.max_episode_len _ hwf.2.2.2.1
            hwf.2.2.2.2.1 (hactB _ (getD_mem _ _ _ hi'))]
          rw [getD_map_getD _ _ _ hi']
          obtain ⟨-, -, heM, -⟩ := writeStepField_ok hw
          have := heM _ (getD_mem (active.map (st.episode_len.getD · 0)) i' 0
            (by simpa using hi'))
          rwa [getD_map_getD _ _ _ hi'] at this
      · intro v hmem i hi
        obtain ⟨stPre, stMid, hmid, -, -, -, -, hR, -, -, -⟩ :=
          foldFields_mem _ hfold hmem hndK
        obtain ⟨hpre, hpost⟩ := hR rfl
        have hw := applyField_actions hmid
        rw [hpre] at hw
        obtain ⟨hlv, -, -, hwr⟩ := writeStepField_ok hw
        show getD2 st1.actions _ _ _ = _
        rw [hpost, hwr, ← hepLen i hi]
        refine foldl_set2_read active _ v st.actions 0 hndA (by simp) hlv ?_ i hi
        intro i' hi'
        constructor
        · rw [hwf.2.2.2.2.2.2.2.1]
          exact hactB _ (getD_mem _ _ _ hi')
        · rw [rowlen_wf st.actions hp.batch_size hp.max_episode_len _
            hwf.2.2.2.2.2.2.2.1 hwf.2.2.2.2.2.2.2.2.1 (hactB _ (getD_mem _ _ _ hi'))]
          rw [getD_map_getD _ _ _ hi']
          obtain ⟨-, -, heM, -⟩ := writeStepField_ok hw
          have := heM _ (getD_mem (active.map (st.episode_len.getD · 0)) i' 0
            (by simpa using hi'))
          rwa [getD_map_getD _ _ _ hi'] at this
      · intro v hmem i hi
        obtain ⟨stPre, stMid, hmid, -, -, -, -, -, hR, -, -⟩ :=
          foldFields_mem _ hfold hmem hndK
        obtain ⟨hpre, hpost⟩ := hR rfl
        have hw := applyField_player_ids hmid
        rw [hpre] at hw
        obtain ⟨hlv, -, -, hwr⟩ := writeStepField_ok hw
        show getD2 st1.player_ids _ _ _ = _
        rw [hpost, hwr, ← hepLen i hi]
        refine foldl_set2_read active _ v st.player_ids 0 hndA (by simp) hlv ?_ i hi
        intro i' hi'
        constructor
        · rw [hwf.2.2.2.2.2.2.2.2.2.1]
          exact hactB _ (getD_mem _ _ _ hi')
        · rw [rowlen_wf st.player_ids hp.batch_size hp.max_episode_len _
            hwf.2.2.2.2.2.2.2.2.2.1 hwf.2.2.2.2.2.2.2.2.2.2.1
            (hactB _ (getD_mem _ _ _ hi'))]
          rw [getD_map_getD _ _ _ hi']
          obtain ⟨-, -, heM, -⟩ := writeStepField_ok hw
          have := heM _ (getD_mem (active.map (st.episode_len.getD · 0)) i' 0
            (by simpa using hi'))
          rwa [getD_map_getD _ _ _ hi'] at this
      · intro v hmem i hi a ha
        obtain ⟨stPre, stMid, hmid, -, -, -, hR, -, -, -, -⟩ :=
          foldFields_mem _ hfold hmem hndK
        obtain ⟨hpre, hpost⟩ := hR rfl
        have hw := applyField_visits hmid
        rw [hpre] at hw
        obtain ⟨hlv, hrows, hsB, heM, hwr⟩ := writeVisitsField_ok hw
        show getD3 st1.children_visits _ _ _ _ = _
        rw [hpost, hwr, ← hepLen i hi]
        unfold visitsWritten
        refine visits_outer_read active _ v st.children_visits 0 hp.num_actions
          hndA (by simp) hlv ?_ i hi a ha
        intro i' hi'
        have hsB' : active.getD i' 0 < hp.batch_size := hactB _ (getD_mem _ _ _ hi')
        have hplane : (st.children_visits.getD (active.getD i' 0) []).length =
            hp.num_actions :=
          (hwf.2.2.2.2.2.2.1 _ (getD_mem _ _ _
            (by rw [hwf.2.2.2.2.2.1]; exact hsB'))).1
        refine ⟨by rw [hwf.2.2.2.2.2.1]; exact hsB', ?_⟩
        intro j hj
        refine ⟨by rw [hplane]; exact hj, ?_⟩
        have hrowM : ((st.children_visits.getD (active.getD i' 0) []).getD j []).length =
            hp.max_episode_len :=
          (hwf.2.2.2.2.2.2.1 _ (getD_mem _ _ _
            (by rw [hwf.2.2.2.2.2.1]; exact hsB'))).2 _
            (getD_mem _ _ _ (by rw [hplane]; exact hj))
        rw [hrowM, getD_map_getD _ _ _ hi']
        have := heM _ (getD_mem (active.map (st.episode_len.getD · 0)) i' 0
          (by simpa using hi'))
        rwa [getD_map_getD _ _ _ hi'] at this
      · intro v hmem i hi
        obtain ⟨stPre, stMid, hmid, -, -, -, -, -, -, hR, -⟩ :=
          foldFields_mem _ hfold hmem hndK
        obtain ⟨hpre, hpost⟩ := hR rfl
        have hw := applyField_dones hmid
        rw [hpre] at hw
        obtain ⟨hlv, -, hwr⟩ := writeDonesField_ok hw
        show st1.dones.getD _ _ = _
        rw [hpost, hwr]
        refine foldl_set_read active v st.dones false hndA hlv ?_ i hi
        intro i' hi'
        rw [hwf.2.2.2.2.2.2.2.2.2.2.2]
        exact hactB _ (getD_mem _ _ _ hi')
      · intro v hmem
        obtain ⟨stPre, stMid, hmid, -, -, -, -, -, -, -, hR⟩ :=
          foldFields_mem _ hfold hmem hndK
        obtain ⟨hpre, hpost⟩ := hR rfl
        have hw := applyField_game_states hmid
        show st1.game_states = _
        rw [hpost, hw, hpre]


/-! ### Claim C8 -/

/-- An entry with an unrecognized key raises the unknown-key `ValueError`. -/
theorem applyField_unknown {hp : Hparams} {active epLens : List Nat}
    {st : GameStats} {kv : String × FieldValue}
    (hbad : kv.1 ∉ storedKeys) :
    applyField hp active epLens st kv = .error (.unknownField kv.1) := by
  simp only [storedKeys, List.mem_cons, List.mem_singleton, not_or] at hbad
  unfold applyField
  rw [if_neg hbad.1, if_neg hbad.2.1, if_neg hbad.2.2.1, if_neg hbad.2.2.2.1,
    if_neg hbad.2.2.2.2.1, if_neg hbad.2.2.2.2.2.1, if_neg hbad.2.2.2.2.2.2.1]

/-- The per-step write helper raises only shape or index errors. -/
theorem writeStepField_error_not_unknown {α : Type} {hp : Hparams} {key : String}
    {active epLens : List Nat} {dst : List (List α)} {v : List α} (k : String) :
    writeStepField hp key active epLens dst v ≠ .error (.unknownField k) := by
  unfold writeStepField
  split_ifs <;> simp

/-- The visits write helper raises only shape, index or read-back errors. -/
theorem writeVisitsField_error_not_unknown {hp : Hparams}
    {active epLens : List Nat} {dst : List (List (List ℚ))} {v : List (List ℚ)}
    (k : String) :
    writeVisitsField hp active epLens dst v ≠ .error (.unknownField k) := by
  unfold writeVisitsField
  split_ifs <;> simp

/-- The dones write helper raises only shape or index errors. -/
theorem writeDonesField_error_not_unknown {hp : Hparams} {active : List Nat}
    {dst v : List Bool} (k : String) :
    writeDonesField hp active dst v ≠ .error (.unknownField k) := by
  unfold writeDonesField
  split_ifs <;> simp

/-- An entry with a recognized key never raises the unknown-key error. -/
theorem applyField_no_unknown {hp : Hparams} {active epLens : List Nat}
    {st : GameStats} {kv : String × FieldValue}
    (hgood : kv.1 ∈ storedKeys) (k : String) :
    applyField hp active epLens st kv ≠ .error (.unknownField k) := by
  intro hc
  unfold applyField at hc
  split_ifs at hc with h1 h2 h3 h4 h5 h6 h7
  · cases hv : kv.2 <;> rw [hv] at hc <;> simp only [] at hc <;> try simp at hc
    cases hw : writeStepField hp "rewards" active epLens st.rewards _ <;>
        rw [hw] at hc <;> simp only [Except.map] at hc
    · injection hc with h
      subst h
      exact writeStepField_error_not_unknown k hw
    · cases hc
  · cases hv : kv.2 <;> rw [hv] at hc <;> simp only [] at hc <;> try simp at hc
    cases hw : writeStepField hp "root_values" active epLens st.root_values _ <;>
        rw [hw] at hc <;> simp only [Except.map] at hc
    · injection hc with h
      subst h
      exact writeStepField_error_not_unknown k hw
    · cases hc
  · cases hv : kv.2 <;> rw [hv] at hc <;> simp only [] at hc <;> try simp at hc
    cases hw : writeVisitsField hp active epLens st.children_visits _ <;>
        rw [hw] at hc <;> simp only [Except.map] at hc
    · injection hc with h
      subst h
      exact writeVisitsField_error_not_unknown k hw
    · cases hc
  · cases hv : kv.2 <;> rw [hv] at hc <;> simp only [] at hc <;> try simp at hc
    cases hw : writeStepField hp "actions" active epLens st.actions _ <;>
        rw [hw] at hc <;> simp only [Except.map] at hc
    · injection hc with h
      subst h
      exact writeStepField_error_not_unknown k hw
    · cases hc
  · cases hv : kv.2 <;> rw [hv] at hc <;> simp only [] at hc <;> try simp at hc
    cases hw : writeStepField hp "player_ids" active epLens st.player_ids _ <;>
        rw [hw] at hc <;> simp only [Except.map] at hc
    · injection hc with h
      subst h
      exact writeStepField_error_not_unknown k hw
    · cases hc
  · cases hv : kv.2 <;> rw [hv] at hc <;> simp only [] at hc <;> try simp at hc
    cases hw : writeDonesField hp active st.dones _ <;>
        rw [hw] at hc <;> simp only [Except.map] at hc
    · injection hc with h
      subst h
      exact writeDonesField_error_not_unknown k hw
    · cases hc
  · cases hv : kv.2 <;> rw [hv] at hc <;> simp only [] at hc <;> simp at hc
  · simp only [storedKeys, List.mem_cons, List.mem_singleton] at hgood
    tauto

/-- A fold over entries containing an unrecognized key cannot succeed. -/
theorem foldFields_fails {hp : Hparams} {active epLens : List Nat}
    {dict : List (String × FieldValue)} {kv : String × FieldValue}
    (hmem : kv ∈ dict) (hbad : kv.1 ∉ storedKeys) :
    ∀ (st st1 : GameStats),
      dict.foldlM (applyField hp active epLens) st ≠ .ok st1 := by
  induction dict with
  | nil => cases hmem
  | cons kv' tl ih =>
    intro st st1 hc
    rw [List.foldlM_cons] at hc
    cases hA : applyField hp active epLens st kv' with
    | error e => rw [hA] at hc; cases hc
    | ok stA =>
      rw [hA] at hc
      rcases List.mem_cons.mp hmem with rfl | hmem'
      · rw [applyField_unknown hbad] at hA
        cases hA
      · exact ih hmem' stA st1 hc

/-- A fold over recognized entries never reports the unknown-key error. -/
theorem foldFields_no_unknown {hp : Hparams} {active epLens : List Nat}
    {dict : List (String × FieldValue)}
    (hgood : ∀ kv ∈ dict, kv.1 ∈ storedKeys) (k : String) :
    ∀ st : GameStats,
      dict.foldlM (applyField hp active epLens) st ≠
        .error (.unknownField k) := by
  induction dict with
  | nil => intro st hc; cases hc
  | cons kv tl ih =>
    intro st hc
    rw [List.foldlM_cons] at hc
    cases hA : applyField hp active epLens st kv with
    | error e =>
      rw [hA] at hc
      simp only [bind, Except.bind] at hc
      cases hc
      exact applyField_no_unknown (hgood kv (List.mem_cons_self _ _)) k hA
    | ok stA =>
      rw [hA] at hc
      exact ih (fun kv' h => hgood kv' (List.mem_cons_of_mem _ h)) stA hc

/-- Claim C8: a call to `append` whose field dictionary contains a key that
is not a stored-tensor name fails — it never returns a new state — and when
the offending entry is the first one processed the error is exactly the
unknown-key `ValueError` for that key; a call whose keys are all recognized
never raises the unknown-key error (it may still raise shape or index
errors, but not that one). -/
theorem C8_unknown_field_fatal (hp : Hparams) (st : GameStats)
    (active : List Nat) (dict : List (String × FieldValue)) :
    ((∃ kv ∈ dict, kv.1 ∉ storedKeys) →
      ∀ st', append hp st active dict ≠ .ok st') ∧
    (∀ kv tl, dict = kv :: tl → kv.1 ∉ storedKeys →
      (∀ s ∈ active, s < hp.batch_size) →
      append hp st active dict = .error (.unknownField kv.1)) ∧
    ((∀ kv ∈ dict, kv.1 ∈ storedKeys) →
      ∀ k, append hp st active dict ≠ .error (.unknownField k)) := by
  refine ⟨?_, ?_, ?_⟩
  · rintro ⟨kv, hmem, hbad⟩ st' hc
    unfold append at hc
    by_cases hact : (active.all (fun s => decide (s < hp.batch_size))) = true
    · rw [if_neg (not_not_intro hact)] at hc
      cases hfold : dict.foldlM
          (fun acc kv => applyField hp active (active.map (st.episode_len.getD · 0)) acc kv)
          st with
      | error e => rw [hfold] at hc; cases hc
      | ok st1 => exact foldFields_fails hmem hbad st st1 hfold
    · rw [if_pos hact] at hc
      cases hc
  · rintro kv tl rfl hbad hact
    unfold append
    rw [if_neg (not_not_intro (by
      rw [List.all_eq_true]
      intro s hs
      simpa using hact s hs))]
    rw [List.foldlM_cons, applyField_unknown hbad]
    rfl
  · intro hgood k hc
    unfold append at hc
    by_cases hact : (active.all (fun s => decide (s < hp.batch_size))) = true
    · rw [if_neg (not_not_intro hact)] at hc
      cases hfold : dict.foldlM
          (fun acc kv => applyField hp active (active.map (st.episode_len.getD · 0)) acc kv)
          st with
      | error e =>
        rw [hfold] at hc
        simp only [] at hc
        cases hc
        exact foldFields_no_unknown hgood k st hfold
      | ok st1 =>
        rw [hfold] at hc
        simp only [] at hc
        cases hc
    · rw [if_pos hact] at hc
      simp at hc

/-- Claim C8 (witness): an append call with an unrecognized field name
`bogus` raises the unknown-key `ValueError` for it. -/
theorem C8_witness :
    append hpA stA [0] [("bogus", FieldValue.fvBool [true])] =
      .error (.unknownField "bogus") :=
  (C8_unknown_field_fatal hpA stA [0] [("bogus", FieldValue.fvBool [true])]).2.1
    ("bogus", FieldValue.fvBool [true]) [] rfl (by decide) (by decide)

/-! ### Claim C9 -/

/-- Claim C9 (counterexample): after appending `done = true` for slot 0 at
step 0 and then `done = false` at step 1, the stored done flag for slot 0 is
just `false` — the step-0 value `true` has been overwritten, because `dones`
is a `(B,)` per-slot tensor (lines 85 and 129-130), not a per-step one. -/
theorem C9_counterexample :
    ((append hpA stA [0] [("dones", FieldValue.fvBool [true])]).toOption.map
      GameStats.dones = some [true]) ∧
    (((do
        let s1 ← append hpA stA [0] [("dones", FieldValue.fvBool [true])]
        append hpA s1 [0] [("dones", FieldValue.fvBool [false])] :
          Except AppendError GameStats)).toOption.map GameStats.dones =
      some [false]) := by
  constructor
  · decide
  · decide

/-- Claim C9 (amended): the done flag is recorded per slot, not per step:
a successful `append` whose dictionary carries a `dones` field leaves each
active slot's flag equal to the newly supplied value, regardless of what was
recorded at any earlier step. -/
theorem C9_amended_dones_overwrite (hp : Hparams) (st : GameStats)
    (active : List Nat) (dict : List (String × FieldValue)) (st' : GameStats)
    (v : List Bool)
    (hok : append hp st active dict = .ok st')
    (hndA : active.Nodup) (hndK : (dict.map Prod.fst).Nodup)
    (hdlen : st.dones.length = hp.batch_size)
    (hmem : ("dones", FieldValue.fvBool v) ∈ dict) :
    ∀ i < active.length,
      st'.dones.getD (active.getD i 0) false = v.getD i false := by
  unfold append at hok
  by_cases hact : (active.all (fun s => decide (s < hp.batch_size))) = true
  case neg =>
    rw [if_pos hact] at hok
    cases hok
  case pos =>
    rw [if_neg (not_not_intro hact)] at hok
    cases hfold : dict.foldlM
        (fun acc kv => applyField hp active (active.map (st.episode_len.getD · 0)) acc kv)
        st with
    | error e => rw [hfold] at hok; cases hok
    | ok st1 =>
      rw [hfold] at hok
      simp only [] at hok
      cases hok
      have hactB : ∀ s ∈ active, s < hp.batch_size := by
        rw [List.all_eq_true] at hact
        intro s hs
        simpa using hact s hs
      intro i hi
      obtain ⟨stPre, stMid, hmid, -, -, -, -, -, -, hR, -⟩ :=
        foldFields_mem _ hfold hmem hndK
      obtain ⟨hpre, hpost⟩ := hR rfl
      have hw := applyField_dones hmid
      rw [hpre] at hw
      obtain ⟨hlv, -, hwr⟩ := writeDonesField_ok hw
      show st1.dones.getD _ _ = _
      rw [hpost, hwr]
      refine foldl_set_read active v st.dones false hndA hlv ?_ i hi
      intro i' hi'
      rw [hdlen]
      exact hactB _ (getD_mem _ _ _ hi')

/-- Claim C9 (witness for the amended theorem): at the `hpW`/`stW` fixture
the appended done values land per slot. -/
theorem C9_amended_witness :
    append hpW stW [0, 1] [("dones", FieldValue.fvBool [true, false])] = .ok stW2 ∧
    stW2.dones.getD 0 false = true ∧ stW2.dones.getD 1 false = false := by
  have hok : append hpW stW [0, 1] [("dones", FieldValue.fvBool [true, false])] =
      .ok stW2 := by decide
  refine ⟨hok, ?_, ?_⟩
  · simpa using C9_amended_dones_overwrite hpW stW [0, 1]
      [("dones", FieldValue.fvBool [true, false])] stW2 [true, false] hok
      (by decide) (by decide) (by decide) (by decide) 0 (by decide)
  · simpa using C9_amended_dones_overwrite hpW stW [0, 1]
      [("dones", FieldValue.fvBool [true, false])] stW2 [true, false] hok
      (by decide) (by decide) (by decide) (by decide) 1 (by decide)


/-- Claim C3 (witness for the amended theorem): appending the full
recognized dictionary `dictW` for both slots of `stW` lands the per-step
values at each slot's episode length, overwrites the done flags, appends the
observation, and increments both episode lengths. -/
theorem C3_amended_witness :
    append hpW stW [0, 1] dictW = .ok stW1 ∧
    stW1.episode_len.getD 0 0 = 3 ∧ stW1.episode_len.getD 1 0 = 2 ∧
    getD2 stW1.rewards 0 2 0 = 5 ∧ getD2 stW1.rewards 1 1 0 = 6 ∧
    getD2 stW1.root_values 1 1 0 = 8 ∧
    getD3 stW1.children_visits 1 0 1 0 = 3 ∧
    stW1.dones.getD 0 false = true ∧
    stW1.game_states = stW.game_states ++ [[9, 10]] := by
  have hok : append hpW stW [0, 1] dictW = .ok stW1 := by decide
  have h := C3_amended_append_effects hpW stW [0, 1] dictW stW1 hok
    (by decide) (by decide) (by decide)
  refine ⟨hok, ?_, ?_, ?_, ?_, ?_, ?_, ?_, ?_⟩
  · simpa using h.1 0 (by decide)
  · simpa using h.1 1 (by decide)
  · simpa using h.2.2.1 [5, 6] (by decide) 0 (by decide)
  · simpa using h.2.2.1 [5, 6] (by decide) 1 (by decide)
  · simpa using h.2.2.2.1 [7, 8] (by decide) 1 (by decide)
  · simpa using h.2.2.2.2.2.2.1 [[1, 2], [3, 4]] (by decide) 1 (by decide) 0 (by decide)
  · simpa using h.2.2.2.2.2.2.2.1 [true, false] (by decide) 0 (by decide)
  · exact h.2.2.2.2.2.2.2.2 [9, 10] (by decide)


/-! ### Claims C5 and C10 -/

/-- `episode_len - 1` resolves to `episode_len - 1` when the episode is
nonempty. -/
theorem resolvedLast_pos (epl m : Nat) (h : 1 ≤ epl) :
    (resolvedLast epl m).toNat = epl - 1 := by
  unfold resolvedLast
  rw [if_neg (by omega)]
  omega

/-- `episode_len - 1 = -1` resolves, python-style, to the last column. -/
theorem resolvedLast_zero (m : Nat) :
    (resolvedLast 0 m).toNat = m - 1 := by
  unfold resolvedLast
  rw [if_pos (by omega)]
  omega

/-- Rows not named by a slot-keyed scatter write keep all their values. -/
theorem foldl_set2_fn_frame {α : Type} (pairs : List (Nat × α)) (pos : Nat → Nat)
    (m : List (List α)) (d : α) (s p : Nat)
    (h : ∀ q ∈ pairs, q.1 ≠ s ∨ pos q.1 ≠ p) :
    getD2 (pairs.foldl (fun acc q => set2 acc q.1 (pos q.1) q.2) m) s p d =
    getD2 m s p d := by
  induction pairs generalizing m with
  | nil => rfl
  | cons q tl ih =>
    rw [List.foldl_cons, ih _ (fun q' hq' => h q' (List.mem_cons_of_mem _ hq')),
      getD2_set2_ne _ _ _ _ _ _ _ (h q (List.mem_cons_self _ _))]

/-- A slot-keyed scatter write over distinct slots stores each supplied
value at its slot's position. -/
theorem foldl_set2_fn_read {α : Type} (a : List Nat) (v : List α) (pos : Nat → Nat)
    (m : List (List α)) (d : α)
    (hnd : a.Nodup) (hlv : v.length = a.length)
    (hb : ∀ i < a.length, a.getD i 0 < m.length ∧
      pos (a.getD i 0) < (m.getD (a.getD i 0) []).length) :
    ∀ i < a.length,
      getD2 ((a.zip v).foldl (fun acc q => set2 acc q.1 (pos q.1) q.2) m)
        (a.getD i 0) (pos (a.getD i 0)) d = v.getD i d := by
  induction a generalizing v m with
  | nil => intro i hi; simp at hi
  | cons s a' ih =>
    cases v with
    | nil => simp at hlv
    | cons v0 v' =>
      intro i hi
      rw [List.zip_cons_cons, List.foldl_cons]
      match i with
      | 0 =>
        have hframe : ∀ q ∈ a'.zip v', q.1 ≠ s ∨ pos q.1 ≠ pos s := by
          intro q hq
          left
          have h2 := (List.of_mem_zip hq).1
          intro hc
          rw [hc] at h2
          exact (List.nodup_cons.mp hnd).1 h2
        rw [show (s :: a').getD 0 0 = s from rfl, show (v0 :: v').getD 0 d = v0 from rfl]
        rw [foldl_set2_fn_frame _ _ _ _ _ _ hframe]
        exact getD2_set2_self _ _ _ _ _ (hb 0 (by simp)).1 (hb 0 (by simp)).2
      | (Nat.succ i') =>
        rw [List.getD_cons_succ, List.getD_cons_succ]
        refine ih v' (set2 m s (pos s) v0) (List.nodup_cons.mp hnd).2
          (by simpa using hlv) ?_ i' (by simp at hi; omega)
        intro i'' hi''
        rw [length_set2, rowlen_set2]
        have := hb (i'' + 1) (by simp; omega)
        simpa using this

/-- Inversion of a successful `update_last_reward_and_values` call. -/
theorem updateLast_ok {hp : Hparams} {st : GameStats} {winIndex : List Nat}
    {rws : List ℚ} {st' : GameStats}
    (hok : updateLast hp st winIndex rws = .ok st') :
    (∀ s ∈ winIndex, s < hp.batch_size) ∧
    rws.length = winIndex.length ∧
    (∀ s ∈ winIndex,
      0 ≤ resolvedLast (st.episode_len.getD s 0) hp.max_episode_len ∧
      resolvedLast (st.episode_len.getD s 0) hp.max_episode_len < hp.max_episode_len) ∧
    st' = { st with rewards := lastRewardWrites hp st winIndex rws } := by
  unfold updateLast at hok
  split_ifs at hok with h1 h2 h3 <;> cases hok
  refine ⟨?_, by omega, ?_, rfl⟩
  · intro s hs
    rw [List.all_eq_true] at h1
    simpa using h1 s hs
  · intro s hs
    rw [List.all_eq_true] at h3
    have := h3 s hs
    simp only [decide_eq_true_eq] at this
    exact ⟨by exact_mod_cast this.1, by exact_mod_cast this.2⟩

/-- Claim C5: a successful `update_last_reward_and_values` call over
distinct target slots with nonempty episodes overwrites exactly the reward
at position `episode_len[slot] - 1` of each target slot; earlier positions
of target slots, all rows of non-target slots, all other stored fields, and
`episode_len` itself are unchanged. -/
theorem C5_update_last_frame (hp : Hparams) (st : GameStats)
    (winIndex : List Nat) (rws : List ℚ) (st' : GameStats)
    (hok : updateLast hp st winIndex rws = .ok st')
    (hnd : winIndex.Nodup)
    (hwfR : st.rewards.length = hp.batch_size)
    (hwfRow : ∀ r ∈ st.rewards, r.length = hp.max_episode_len)
    (hpos : ∀ s ∈ winIndex, 1 ≤ st.episode_len.getD s 0) :
    (∀ i < winIndex.length,
      getD2 st'.rewards (winIndex.getD i 0)
        (st.episode_len.getD (winIndex.getD i 0) 0 - 1) 0 = rws.getD i 0) ∧
    (∀ b p, b ∉ winIndex → getD2 st'.rewards b p 0 = getD2 st.rewards b p 0) ∧
    (∀ b p, b ∈ winIndex → p ≠ st.episode_len.getD b 0 - 1 →
      getD2 st'.rewards b p 0 = getD2 st.rewards b p 0) ∧
    st'.episode_len = st.episode_len ∧ st'.root_values = st.root_values ∧
    st'.children_visits = st.children_visits ∧ st'.actions = st.actions ∧
    st'.player_ids = st.player_ids ∧ st'.dones = st.dones ∧
    st'.game_states = st.game_states := by
  obtain ⟨hB, hlen, hres, rfl⟩ := updateLast_ok hok
  have hposEq : ∀ s ∈ winIndex,
      (resolvedLast (st.episode_len.getD s 0) hp.max_episode_len).toNat =
      st.episode_len.getD s 0 - 1 :=
    fun s hs => resolvedLast_pos _ _ (hpos s hs)
  refine ⟨?_, ?_, ?_, rfl, rfl, rfl, rfl, rfl, rfl, rfl⟩
  · intro i hi
    have hread := foldl_set2_fn_read winIndex rws
      (fun s => (resolvedLast (st.episode_len.getD s 0) hp.max_episode_len).toNat)
      st.rewards 0 hnd hlen ?_ i hi
    · simp only [] at hread
      rw [hposEq (winIndex.getD i 0) (getD_mem _ _ _ hi)] at hread
      exact hread
    · intro i' hi'
      have hmem := getD_mem winIndex i' 0 hi'
      simp only []
      refine ⟨by rw [hwfR]; exact hB _ hmem, ?_⟩
      rw [rowlen_wf st.rewards hp.batch_size hp.max_episode_len _ hwfR hwfRow
        (hB _ hmem)]
      have h2 := (hres _ hmem).2
      have h1 := (hres _ hmem).1
      omega
  · intro b p hb
    show getD2 (lastRewardWrites hp st winIndex rws) b p 0 = _
    unfold lastRewardWrites
    refine foldl_set2_fn_frame (winIndex.zip rws)
      (fun s => (resolvedLast (st.episode_len.getD s 0) hp.max_episode_len).toNat)
      st.rewards 0 b p ?_
    intro q hq
    left
    intro hc
    exact hb (hc ▸ (List.of_mem_zip hq).1)
  · intro b p hb hp'
    show getD2 (lastRewardWrites hp st winIndex rws) b p 0 = _
    unfold lastRewardWrites
    refine foldl_set2_fn_frame (winIndex.zip rws)
      (fun s => (resolvedLast (st.episode_len.getD s 0) hp.max_episode_len).toNat)
      st.rewards 0 b p ?_
    intro q hq
    by_cases hqb : q.1 = b
    · right
      simp only []
      rw [hqb, hposEq b hb]
      exact fun hc => hp' hc.symm
    · exact Or.inl hqb

/-- Claim C5 (witness): on the `stW` fixture (episode lengths 2 and 1) the
call overwrites rewards at positions 1 and 0 and leaves everything else. -/
theorem C5_witness :
    updateLast hpW stW [0, 1] [50, 60] = .ok stW3 ∧
    getD2 stW3.rewards 0 1 0 = 50 ∧ getD2 stW3.rewards 1 0 0 = 60 ∧
    getD2 stW3.rewards 0 0 0 = getD2 stW.rewards 0 0 0 ∧
    stW3.episode_len = stW.episode_len ∧ stW3.dones = stW.dones := by
  have h := C5_update_last_frame hpW stW [0, 1] [50, 60] stW3 (by decide)
    (by decide) (by decide) (by decide) (by decide)
  refine ⟨by decide, ?_, ?_, ?_, h.2.2.2.1, h.2.2.2.2.2.2.2.2.1⟩
  · simpa using h.1 0 (by decide)
  · simpa using h.1 1 (by decide)
  · simpa using h.2.2.1 0 0 (by decide) (by decide)

/-- Claim C10: a target slot whose episode is empty does not make
`update_last_reward_and_values` fail: the position `episode_len - 1 = -1`
resolves by negative indexing to the last buffer column, so the call
succeeds (provided every target slot is valid) and that slot's reward at
position `max_episode_len - 1` is overwritten with the supplied value. -/
theorem C10_underflow_writes_last (hp : Hparams) (st : GameStats)
    (winIndex : List Nat) (rws : List ℚ) (slot : Nat) (i : Nat)
    (hi : i < winIndex.length)
    (hslot : winIndex.getD i 0 = slot)
    (hnd : winIndex.Nodup)
    (hlen : rws.length = winIndex.length)
    (hB : ∀ s ∈ winIndex, s < hp.batch_size)
    (hepl : ∀ s ∈ winIndex, st.episode_len.getD s 0 ≤ hp.max_episode_len)
    (hM : 1 ≤ hp.max_episode_len)
    (hwfR : st.rewards.length = hp.batch_size)
    (hwfRow : ∀ r ∈ st.rewards, r.length = hp.max_episode_len)
    (hslot0 : st.episode_len.getD slot 0 = 0) :
    ∃ st', updateLast hp st winIndex rws = .ok st' ∧
      getD2 st'.rewards slot (hp.max_episode_len - 1) 0 = rws.getD i 0 := by
  have hresOk : ∀ s ∈ winIndex,
      0 ≤ resolvedLast (st.episode_len.getD s 0) hp.max_episode_len ∧
      resolvedLast (st.episode_len.getD s 0) hp.max_episode_len <
        hp.max_episode_len := by
    intro s hs
    unfold resolvedLast
    have := hepl s hs
    split_ifs with h
    · omega
    · omega
  have hok : updateLast hp st winIndex rws =
      .ok { st with rewards := lastRewardWrites hp st winIndex rws } := by
    unfold updateLast
    rw [if_neg (not_not_intro (by
        rw [List.all_eq_true]
        intro s hs
        simpa using hB s hs)),
      if_neg (by omega),
      if_neg (not_not_intro (by
        rw [List.all_eq_true]
        intro s hs
        have := hresOk s hs
        simp only [decide_eq_true_eq]
        constructor
        · exact_mod_cast this.1
        · exact_mod_cast this.2))]
  refine ⟨_, hok, ?_⟩
  show getD2 (lastRewardWrites hp st winIndex rws) slot (hp.max_episode_len - 1) 0 = _
  unfold lastRewardWrites
  have hread := foldl_set2_fn_read winIndex rws
    (fun s => (resolvedLast (st.episode_len.getD s 0) hp.max_episode_len).toNat)
    st.rewards 0 hnd hlen ?_ i hi
  · simp only [] at hread
    rw [hslot, hslot0, resolvedLast_zero] at hread
    exact hread
  · intro i' hi'
    have hmem := getD_mem winIndex i' 0 hi'
    simp only []
    refine ⟨by rw [hwfR]; exact hB _ hmem, ?_⟩
    rw [rowlen_wf st.rewards hp.batch_size hp.max_episode_len _ hwfR hwfRow
      (hB _ hmem)]
    have h2 := (hresOk _ hmem).2
    have h1 := (hresOk _ hmem).1
    omega

/-- Claim C10 (witness): on the `stW0` fixture, slot 1 has an empty episode
and `update_last_reward_and_values` writes its reward at the last buffer
position `max_episode_len - 1 = 2`. -/
theorem C10_witness :
    updateLast hpW stW0 [1] [-1] = .ok stW4 ∧
    getD2 stW4.rewards 1 2 0 = -1 := by
  obtain ⟨st', hok, hval⟩ := C10_underflow_writes_last hpW stW0 [1] [-1] 1 0
    (by decide) (by decide) (by decide) (by decide) (by decide) (by decide)
    (by decide) (by decide) (by decide) (by decide)
  have heq : updateLast hpW stW0 [1] [-1] = .ok stW4 := by decide
  rw [heq] at hok
  injection hok with h
  subst h
  exact ⟨heq, by simpa using hval⟩

end Muzero
